import Mathlib

/-!
# oscii: the sample data path

A shallow embedding of `oscii.c`: the ring buffer of samples kept in the
globals `samples`, `sample_times`, `sample_head`, `sample_tail`,
`sample_busy`; the ingest loop of `main` (the `calibrate:` search for the
`0xFF` sentinel and the packet reading loop); and the render side
(`draw_grid`, `plot_points`, `doplot`).

Conventions of the embedding.

* The array indices (`sample_head`, `sample_tail`, `end`, `i`) and `len` are
  natural numbers or integers without wrap-around: they stay within
  `sample_len + 1`, itself an `int`.
* The other `int` arithmetic of the render side goes through `wrap32`, the
  two's complement reduction to 32 bits; `uint64_t` timestamps are natural
  numbers reduced modulo `2 ^ 64`.
* `/` on `int` is `Int.tdiv` (truncation toward zero); a zero divisor is the
  fault `Fault.divByZero`.
* An array read is `xs[i]?`; an index outside the array is the fault
  `Fault.outOfBounds`. The one array write, at `sample_tail`, is `List.set`.
* Loops run on a fuel argument; running out of it is `Fault.outOfFuel` on the
  render side and `Outcome.running` for the ingest loop.
* The two threads are embedded one at a time: a call of `doplot` or a run of
  the ingest loop sees `sample_busy` as the globals hold it, with no step of
  the other thread in between.
-/

namespace Oscii

/-! ## Constants and globals -/

/-- Line 14: `#define MAXVAL 1024`. -/
def MAXVAL : Int := 1024

/-- Line 82: `#define GUTTER 40`. -/
def GUTTER : Int := 40

/-- The file-scope variables of lines 17-21. The two arrays are the blocks
obtained from `malloc` at lines 369-370. -/
structure Globals where
  sample_len : Nat
  samples : List Int
  sample_times : List Nat
  sample_head : Nat
  sample_tail : Nat
  sample_busy : Bool
deriving DecidableEq, Repr

/-- The globals when `main` reaches `calibrate:` for the first time: both
indices are `0`, the flag is clear, and the two arrays are freshly allocated
blocks (of whatever content) for `sample_len` entries. -/
def startup (C : Nat) (mem : List Int) (tmem : List Nat) : Globals :=
  { sample_len := C, samples := mem, sample_times := tmem,
    sample_head := 0, sample_tail := 0, sample_busy := false }

/-- Both arrays have `sample_len` entries and both indices are inside them. -/
def Globals.Valid (g : Globals) : Prop :=
  g.samples.length = g.sample_len ∧ g.sample_times.length = g.sample_len ∧
  g.sample_head < g.sample_len ∧ g.sample_tail < g.sample_len

instance (g : Globals) : Decidable g.Valid := by
  unfold Globals.Valid; exact inferInstance

/-! ## The write into the ring buffer (`main`, lines 436-451) -/

/-- Lines 436-451 of `main`: the store of the decoded value `c` and of the
timestamp `ts` (the value of `1000000 * tv.tv_sec + tv.tv_usec`) at
`sample_tail`, guarded by `sample_busy`. -/
def push (g : Globals) (c : Int) (ts : Nat) : Globals :=
  if g.sample_busy then g
  else
    let samples := g.samples.set g.sample_tail c
    let sample_times := g.sample_times.set g.sample_tail ts
    let tail := g.sample_tail + 1
    let tail := if tail ≥ g.sample_len then 0 else tail
    let head :=
      if tail = g.sample_head then
        (if g.sample_head + 1 ≥ g.sample_len then 0 else g.sample_head + 1)
      else g.sample_head
    { g with samples := samples, sample_times := sample_times,
             sample_head := head, sample_tail := tail }

/-- A sequence of writes, oldest first. -/
def pushes (g : Globals) (ps : List (Int × Nat)) : Globals :=
  ps.foldl (fun s p => push s p.1 p.2) g

/-- The number of live entries, `(tail - head + C) mod C`. -/
def liveCount (g : Globals) : Nat :=
  (g.sample_tail + g.sample_len - g.sample_head) % g.sample_len

/-- The entry stored at index `i`, when `i` is inside both arrays. -/
def entryAt (g : Globals) (i : Nat) : Option (Int × Nat) :=
  match g.samples[i]?, g.sample_times[i]? with
  | some v, some t => some (v, t)
  | _, _ => none

/-- The live entries read from `sample_head` up to `sample_tail` in ring
order. -/
def live (g : Globals) : List (Int × Nat) :=
  (List.range (liveCount g)).filterMap
    (fun k => entryAt g ((g.sample_head + k) % g.sample_len))

/-- Lines 125-129 of `plot_points`: the value given to `len` for the range
from `sample_head` to `end`. -/
def rangeLen (g : Globals) (e : Nat) : Int :=
  if e < g.sample_head then
    (g.sample_len : Int) - g.sample_head + e - 1
  else
    (e : Int) - g.sample_head

/-! ## The ingest loop of `main` (lines 374-461) -/

/-- An `unsigned char`. -/
abbrev Byte := Fin 256

/-- A `struct timeval` as filled in by `gettimeofday`. -/
structure Timeval where
  tv_sec : Int
  tv_usec : Int
deriving DecidableEq, Repr

/-- Lines 288-292 (and the same expression at line 441):
`1000000 * tv.tv_sec + tv.tv_usec` converted to `uint64_t`. -/
def usec (tv : Timeval) : Nat :=
  ((1000000 * tv.tv_sec + tv.tv_usec) % (2 : Int) ^ 64).toNat

/-- The state of the ingest thread. `input` lists the outcomes of the
`read(fd, &v, 1)` calls still to come, `some b` for a call that returns 1 and
stores `b`, `none` for a call that returns 0 or less; once the list is used
up every call returns 0 (end of stream). `nreads` counts the `read` calls
made, `ntimes` the `gettimeofday(&tv, NULL)` calls of line 412, and `stored`
records, oldest first, the pairs written into the ring buffer. -/
structure Ingest where
  g : Globals
  input : List (Option Byte)
  nreads : Nat
  ntimes : Nat
  stored : List (Int × Nat)
deriving DecidableEq, Repr

/-- One call `read(fd, &v, 1)`. -/
def readByte (st : Ingest) : Option Byte × Ingest :=
  match st.input with
  | [] => (none, { st with nreads := st.nreads + 1 })
  | r :: rest => (r, { st with input := rest, nreads := st.nreads + 1 })

/-- The two states of the frame synchronizer: the `calibrate:` loop and the
packet loop. -/
inductive Phase where
  | searching
  | locked
deriving DecidableEq, Repr

/-- The three `exit(1)` paths of the ingest loop, named after their `perror`
messages `read from device (1)`, `(2)` and `(3)`. -/
inductive Fatal where
  | read1
  | read2
  | read3
deriving DecidableEq, Repr

/-- What one pass through a loop body does: go on in a phase, or leave the
process through `exit(1)`. -/
inductive Step where
  | next (p : Phase) (st : Ingest)
  | exit (f : Fatal) (st : Ingest)
deriving DecidableEq, Repr

/-- One pass through the body of the `for (;;)` of lines 376-399. The results
of the two reads of lines 387-388 are not looked at. -/
def calibrate_iter (st : Ingest) : Step :=
  match readByte st with
  | (none, st1) => .exit .read1 st1
  | (some v, st1) =>
    if v = 0xFF then
      let st2 := (readByte st1).2
      let st3 := (readByte st2).2
      match readByte st3 with
      | (none, st4) => .exit .read2 st4
      | (some v4, st4) =>
        if v4 = 0xFF then .next .locked st4 else .next .searching st4
    else .next .searching st1

/-- The value `(b0 << 8) | b1` formed at lines 416 and 420. -/
def decode (b0 b1 : Byte) : Int :=
  ((b0.val <<< 8 ||| b1.val : Nat) : Int)

/-- The content of `v` after a `read(fd, &v, 1)` with result `r`: the byte
read, or what `v` held before when the call fails. -/
def afterRead (r : Option Byte) (v : Byte) : Byte :=
  match r with
  | some b => b
  | none => v

/-- One pass through the body of the `while` of lines 407-461, with
`opts.terminated` clear. The second read leaves `v` as it was when it fails,
and only the result of the last read made reaches the test of line 425. The
redraw request of lines 453-460 touches none of the globals and is left
out. -/
def locked_iter (clock : Nat → Timeval) (st : Ingest) : Step :=
  match readByte st with
  | (r1, st1) =>
    let tv := clock st1.ntimes
    let st1 := { st1 with ntimes := st1.ntimes + 1 }
    match r1 with
    | none => .exit .read3 st1
    | some b0 =>
      match readByte st1 with
      | (r2, st2) =>
        let v := afterRead r2 b0
        let c := decode b0 v
        match readByte st2 with
        | (none, st3) => .exit .read3 st3
        | (some _, st3) =>
          if c > MAXVAL then .next .searching st3
          else
            .next .locked
              { st3 with
                g := push st3.g c (usec tv),
                stored :=
                  if st3.g.sample_busy then st3.stored
                  else st3.stored ++ [(c, usec tv)] }

/-- One pass through the loop body of the current phase. -/
def step (clock : Nat → Timeval) (p : Phase) (st : Ingest) : Step :=
  match p with
  | .searching => calibrate_iter st
  | .locked => locked_iter clock st

/-- Where the ingest thread is after some passes: gone through `exit(1)`, or
still running. -/
inductive Outcome where
  | exited (f : Fatal) (st : Ingest)
  | running (p : Phase) (st : Ingest)
deriving DecidableEq, Repr

/-- The state inside an outcome. -/
def Outcome.st : Outcome → Ingest
  | .exited _ st => st
  | .running _ st => st

/-- At most `fuel` passes through the loop bodies, from phase `p`. -/
def run (clock : Nat → Timeval) : Nat → Phase → Ingest → Outcome
  | 0, p, st => .running p st
  | fuel + 1, p, st =>
    match step clock p st with
    | .exit f st1 => .exited f st1
    | .next p1 st1 => run clock fuel p1 st1

/-- The ingest thread at `calibrate:` for the first time, in front of the
read results `input`. -/
def ingestStart (g : Globals) (input : List (Option Byte)) : Ingest :=
  { g := g, input := input, nreads := 0, ntimes := 0, stored := [] }

/-- The ingest path of `main` from line 374 on. -/
def ingest (clock : Nat → Timeval) (fuel : Nat) (g : Globals)
    (input : List (Option Byte)) : Outcome :=
  run clock fuel .searching (ingestStart g input)

/-- The four bytes `0xFF` of the sentinel, all read with success. -/
def sentinel : List (Option Byte) := [some 0xFF, some 0xFF, some 0xFF, some 0xFF]

/-- The bytes of a list of 3-byte packets, all read with success. -/
def packetBytes : List (Byte × Byte × Byte) → List (Option Byte)
  | [] => []
  | (b0, b1, b2) :: ps => some b0 :: some b1 :: some b2 :: packetBytes ps

/-- The pairs that the packets `ps` decode to when their first bytes are read
at the `gettimeofday` calls number `k`, `k + 1`, ... -/
def decoded (clock : Nat → Timeval) : Nat → List (Byte × Byte × Byte) → List (Int × Nat)
  | _, [] => []
  | k, (b0, b1, _) :: ps => (decode b0 b1, usec (clock k)) :: decoded clock (k + 1) ps

/-- A clock for the examples: second `k`, microsecond `0` at call `k`. -/
def tick (k : Nat) : Timeval := { tv_sec := k, tv_usec := 0 }

/-! ## The render side (`draw_dashed`, `draw_grid`, `plot_points`, `doplot`) -/

/-- The ways a run of the embedded code can fail to give a result. -/
inductive Fault where
  | outOfBounds
  | divByZero
  | outOfFuel
deriving DecidableEq, Repr

deriving instance DecidableEq for Except

/-- Two's complement reduction of an integer to the range of a 32-bit `int`. -/
def wrap32 (x : Int) : Int :=
  (x + 2147483648) % 4294967296 - 2147483648

/-- The sum `a + b` of two `int`. -/
def add32 (a b : Int) : Int := wrap32 (a + b)

/-- The difference `a - b` of two `int`. -/
def sub32 (a b : Int) : Int := wrap32 (a - b)

/-- The product `a * b` of two `int`. -/
def mul32 (a b : Int) : Int := wrap32 (a * b)

/-- The quotient `a / b` of two `int`, `b` not zero: truncated toward zero. -/
def div32 (a b : Int) : Int := wrap32 (Int.tdiv a b)

/-- The fields of `struct plotarg` (lines 36-46) other than the renderer. -/
structure plotarg where
  width : Int
  height : Int
  sample_msecs : Int
  max_y : Int
  refresh_rate : Int
  terminated : Int
deriving DecidableEq, Repr

/-- The calls made on the SDL renderer: `SDL_SetRenderDrawColor`,
`SDL_RenderClear`, `SDL_RenderDrawLine`, `SDL_RenderDrawPoint` and
`SDL_RenderPresent`. -/
inductive Draw where
  | setColor (r g b a : Int)
  | clear
  | line (x1 y1 x2 y2 : Int)
  | point (x y : Int)
  | present
deriving DecidableEq, Repr

/-- Lines 49-54: `plot_clear`. -/
def plot_clear : List Draw := [.setColor 0 0 0 255, .clear]

/-- Lines 62-68: the loop of the horizontal branch of `draw_dashed`. -/
def dashed_h (y1 x2 y2 len : Int) : Nat → Int → Except Fault (List Draw)
  | 0, x1 => if x1 < x2 then .error .outOfFuel else .ok []
  | fuel + 1, x1 =>
    if x1 < x2 then
      let to1 := add32 x1 len
      let to1 := if to1 > x2 then x2 else to1
      match dashed_h y1 x2 y2 len fuel (add32 x1 (add32 len 3)) with
      | .error f => .error f
      | .ok ds => .ok (.line x1 y1 to1 y2 :: ds)
    else .ok []

/-- Lines 71-77: the loop of the vertical branch of `draw_dashed`. -/
def dashed_v (x1 y2 len : Int) : Nat → Int → Except Fault (List Draw)
  | 0, y1 => if y1 < y2 then .error .outOfFuel else .ok []
  | fuel + 1, y1 =>
    if y1 < y2 then
      let to1 := add32 y1 len
      let to1 := if to1 > y2 then y2 else to1
      match dashed_v x1 y2 len fuel (add32 y1 (add32 len 3)) with
      | .error f => .error f
      | .ok ds => .ok (.line x1 y1 x1 to1 :: ds)
    else .ok []

/-- Lines 56-80: `draw_dashed`. -/
def draw_dashed (fuel : Nat) (x1 y1 x2 y2 len : Int) : Except Fault (List Draw) :=
  if x1 ≠ x2 then dashed_h y1 x2 y2 len fuel x1
  else dashed_v x1 y2 len fuel y1

/-- Lines 95-98: the `for` loop of `draw_grid`, with `k` rows still to draw
from row `i` on. -/
def grid_rows (fuel : Nat) (opts : plotarg) (ygap : Int) :
    Nat → Int → Except Fault (List Draw)
  | 0, _ => .ok []
  | k + 1, i =>
    let y := sub32 opts.height (add32 GUTTER (mul32 i ygap))
    match draw_dashed fuel GUTTER y (sub32 opts.width 10) y 5 with
    | .error f => .error f
    | .ok row =>
      match grid_rows fuel opts ygap k (add32 i 1) with
      | .error f => .error f
      | .ok rest => .ok (row ++ rest)

/-- Lines 84-111: `draw_grid`. -/
def draw_grid (fuel : Nat) (opts : plotarg) : Except Fault (List Draw) :=
  let ygap := div32 (sub32 opts.height GUTTER) 11
  match grid_rows fuel opts ygap 11 0 with
  | .error f => .error f
  | .ok rows =>
    .ok (plot_clear ++ [.setColor 7 65 110 255] ++ rows ++
      [ .setColor 7 41 176 255,
        .line (sub32 GUTTER 1) (sub32 opts.height 10) (sub32 GUTTER 1) 20,
        .line (sub32 GUTTER 2) (sub32 opts.height 10) (sub32 GUTTER 2) 20,
        .line (sub32 GUTTER 3) (sub32 opts.height 10) (sub32 GUTTER 3) 20,
        .line 10 (add32 (sub32 opts.height GUTTER) 1) (sub32 opts.width 10)
          (add32 (sub32 opts.height GUTTER) 1),
        .line 10 (add32 (sub32 opts.height GUTTER) 2) (sub32 opts.width 10)
          (add32 (sub32 opts.height GUTTER) 2),
        .line 10 (add32 (sub32 opts.height GUTTER) 3) (sub32 opts.width 10)
          (add32 (sub32 opts.height GUTTER) 3) ])

/-- Line 137: `x = GUTTER + (xrange * n / len)`. -/
def xcoord (xrange n len : Int) : Except Fault Int :=
  if len = 0 then .error .divByZero
  else .ok (add32 GUTTER (div32 (mul32 xrange n) len))

/-- Lines 138-139: `y = opts->height - GUTTER - (yrange * samples[i] / opts->max_y)`. -/
def ycoord (height yrange sample max_y : Int) : Except Fault Int :=
  if max_y = 0 then .error .divByZero
  else .ok (sub32 (sub32 height GUTTER) (div32 (mul32 yrange sample) max_y))

/-- Lines 136-151: the `for` loop of `plot_points`, at index `i` with offset
counter `n`, the previous point being `(x0, prev)`. -/
def plot_loop (opts : plotarg) (g : Globals) (e : Nat) (len xrange yrange : Int) :
    Nat → Nat → Int → Int → Int → Except Fault (List Draw)
  | 0, i, _, _, _ => if i = e then .ok [] else .error .outOfFuel
  | fuel + 1, i, n, x0, prev =>
    if i = e then .ok []
    else
      match xcoord xrange n len with
      | .error f => .error f
      | .ok x =>
        match g.samples[i]? with
        | none => .error .outOfBounds
        | some s =>
          match ycoord opts.height yrange s opts.max_y with
          | .error f => .error f
          | .ok y =>
            let i1 := if i + 1 ≥ g.sample_len then 0 else i + 1
            match plot_loop opts g e len xrange yrange fuel i1 (add32 n 1) x y with
            | .error f => .error f
            | .ok ds => .ok (.line x0 prev x y :: .point x y :: ds)

/-- Lines 113-152: `plot_points`. -/
def plot_points (fuel : Nat) (opts : plotarg) (g : Globals) (e : Nat) :
    Except Fault (List Draw) :=
  let xrange := sub32 opts.width GUTTER
  let yrange := sub32 opts.height GUTTER
  let prev := sub32 opts.height GUTTER
  let len := rangeLen g e
  match plot_loop opts g e len xrange yrange fuel g.sample_head 0 GUTTER prev with
  | .error f => .error f
  | .ok ds => .ok (.setColor 0 200 0 255 :: ds)

/-- Line 177: `te = sample_times[sample_head] + (opts->sample_msecs * 1000)`,
the `int` product converted to `uint64_t` and the sum taken modulo `2 ^ 64`. -/
def threshold (t0 : Nat) (sample_msecs : Int) : Nat :=
  (((t0 : Int) + mul32 sample_msecs 1000) % 18446744073709551616).toNat

/-- Lines 178-185: the `for` loop of `doplot` that looks for `end`. -/
def find_end (g : Globals) (te : Nat) : Nat → Nat → Except Fault Nat
  | 0, e => if e = g.sample_tail then .ok e else .error .outOfFuel
  | fuel + 1, e =>
    if e = g.sample_tail then .ok e
    else
      match g.sample_times[e]? with
      | none => .error .outOfBounds
      | some t =>
        if t ≥ te then .ok e
        else find_end g te fuel (if e + 1 ≥ g.sample_len then 0 else e + 1)

/-- Lines 176-185: the choice of `end` in `doplot`, for a buffer that is not
empty. -/
def window_end (fuel : Nat) (opts : plotarg) (g : Globals) : Except Fault Nat :=
  match g.sample_times[g.sample_head]? with
  | none => .error .outOfBounds
  | some t0 => find_end g (threshold t0 opts.sample_msecs) fuel (g.sample_head + 1)

/-- Lines 154-195: `doplot`. The result is the globals after the call, the
calls made on the renderer, and the value returned. -/
def doplot (fuel : Nat) (opts : plotarg) (g : Globals) :
    Except Fault (Globals × List Draw × Nat) :=
  if g.sample_busy then .ok (g, [], g.sample_head)
  else
    match draw_grid fuel opts with
    | .error f => .error f
    | .ok grid =>
      if g.sample_head = g.sample_tail then
        .ok ({ g with sample_busy := false }, grid, g.sample_head)
      else
        match window_end fuel opts { g with sample_busy := true } with
        | .error f => .error f
        | .ok e =>
          match plot_points fuel opts { g with sample_busy := true } e with
          | .error f => .error f
          | .ok pts =>
            .ok ({ g with sample_head := e, sample_busy := false },
              grid ++ pts ++ [.present], e)

/-- The x coordinates of the `SDL_RenderDrawPoint` calls in a list of draw
calls, in order. -/
def pointXs : List Draw → List Int
  | [] => []
  | .point x _ :: ds => x :: pointXs ds
  | _ :: ds => pointXs ds

/-- The coordinates of the `SDL_RenderDrawPoint` calls in a list of draw
calls, in order. -/
def pointsOf : List Draw → List (Int × Int)
  | [] => []
  | .point x y :: ds => (x, y) :: pointsOf ds
  | _ :: ds => pointsOf ds

/-- The indices `start, start + 1, ...` in ring order, `n` of them. -/
def ringFrom (C start : Nat) (n : Nat) : List Nat :=
  (List.range n).map (fun k => (start + k) % C)

/-- The number of steps in ring order from index `i` to index `j`. -/
def ringDist (C i j : Nat) : Nat :=
  if i ≤ j then j - i else j + C - i

/-- The window end as the specification words it: the first index in ring
order from `sample_head + 1`, strictly before `sample_tail`, whose timestamp
is at least `te`, or `sample_tail` when there is none. -/
def firstAtLeast (g : Globals) (te : Nat) : Nat :=
  ((ringFrom g.sample_len (g.sample_head + 1)
      (ringDist g.sample_len (g.sample_head + 1) g.sample_tail)).find?
    (fun i => decide (te ≤ g.sample_times.getD i 0))).getD g.sample_tail

/-- The window end as the specification words it, in the integers: the first
index in ring order from `sample_head + 1`, strictly before `sample_tail`,
whose timestamp is at least the integer `te`, or `sample_tail` when there is
none. -/
def firstAtLeastInt (g : Globals) (te : Int) : Nat :=
  ((ringFrom g.sample_len (g.sample_head + 1)
      (ringDist g.sample_len (g.sample_head + 1) g.sample_tail)).find?
    (fun i => decide (te ≤ ((g.sample_times.getD i 0 : Nat) : Int)))).getD g.sample_tail

/-- The window end as the specification words it, for the threshold of line
177: `firstAtLeast` at `timestamps[head] + W * 1000` in the arithmetic of the
code. -/
def selectedEnd (opts : plotarg) (g : Globals) : Nat :=
  firstAtLeast g (threshold (g.sample_times.getD g.sample_head 0) opts.sample_msecs)

/-- The plot parameters of the examples: a canvas of `w` by `h`, a window of
`ms` milliseconds, and the default `max_y` of line 313. -/
def optsOf (w h ms : Int) : plotarg :=
  { width := w, height := h, sample_msecs := ms, max_y := 1200,
    refresh_rate := 0, terminated := 0 }

/-- The buffer of the window example: timestamps 0, 100, 250, 400, 600 and
1200 at indices 0 to 5 of a ring of 7, `sample_head = 0`, `sample_tail = 6`. -/
def windowExample : Globals :=
  { sample_len := 7, samples := [10, 20, 30, 40, 50, 60, 0],
    sample_times := [0, 100, 250, 400, 600, 1200, 0],
    sample_head := 0, sample_tail := 6, sample_busy := false }

/-- The buffer of the two-sample example: the values 10 and 20 at indices 0
and 1 of a ring of 4, `sample_head = 0`, `sample_tail = 2`. -/
def twoSamples : Globals :=
  { sample_len := 4, samples := [10, 20, 0, 0], sample_times := [0, 1, 0, 0],
    sample_head := 0, sample_tail := 2, sample_busy := false }

/-- The buffer of the render example: three samples with timestamps 0, 2000
and 4000 at indices 0 to 2 of a ring of 4, `sample_tail = 3`, and
`sample_head = h`. -/
def threeSamples (h : Nat) : Globals :=
  { sample_len := 4, samples := [100, 200, 300, 0], sample_times := [0, 2000, 4000, 0],
    sample_head := h, sample_tail := 3, sample_busy := false }

/-- The calls `draw_grid` makes on a canvas of 50 by 51. -/
def gridExample : List Draw :=
  [.setColor 0 0 0 255, .clear, .setColor 7 65 110 255, .setColor 7 41 176 255,
   .line 39 41 39 20, .line 38 41 38 20, .line 37 41 37 20,
   .line 10 12 40 12, .line 10 13 40 13, .line 10 14 40 14]

/-- One arrival at the write step of lines 436-451 at a moment when the
render thread holds `sample_busy` at the value `x.2.2`: the pair
`(x.1, x.2.1)` is written when the flag is clear and dropped when it is
set. -/
def attempt (g : Globals) (x : Int × Nat × Bool) : Globals :=
  push { g with sample_busy := x.2.2 } x.1 x.2.1

/-- A sequence of arrivals at the write step, oldest first. -/
def attempts (g : Globals) (xs : List (Int × Nat × Bool)) : Globals :=
  xs.foldl attempt g

/-- The pairs of a sequence of arrivals that are written, those that meet a
clear flag. -/
def applied (xs : List (Int × Nat × Bool)) : List (Int × Nat) :=
  xs.filterMap (fun x => if x.2.2 then none else some (x.1, x.2.1))

/-- The buffer of the wrapped example: a ring of 4 with `sample_head = 2` and
`sample_tail = 1`, its three live samples at indices 2, 3 and 0. -/
def wrappedExample : Globals :=
  { sample_len := 4, samples := [300, 0, 100, 200],
    sample_times := [3000, 0, 1000, 2000],
    sample_head := 2, sample_tail := 1, sample_busy := false }

/-- The buffer of the last-slot example: a ring of 4 with `sample_head = 3`,
the last index of the arrays, and `sample_tail = t`. -/
def lastSlot (t : Nat) : Globals :=
  { sample_len := 4, samples := [200, 300, 0, 100],
    sample_times := [2000, 3000, 0, 1000],
    sample_head := 3, sample_tail := t, sample_busy := false }

/-- The buffer of the threshold examples: a ring of 4 with the timestamps
`t0`, `t1`, `t2` at indices 0 to 2, `sample_head = 0` and `sample_tail = 3`. -/
def timesExample (t0 t1 t2 : Nat) : Globals :=
  { sample_len := 4, samples := [10, 20, 30, 0], sample_times := [t0, t1, t2, 0],
    sample_head := 0, sample_tail := 3, sample_busy := false }

/-! ## Theorems: the ring buffer -/

theorem wrap_succ (n C : Nat) (hC : 0 < C) :
    (if n % C + 1 ≥ C then 0 else n % C + 1) = (n + 1) % C := by
  have hlt := Nat.mod_lt n hC
  have hn : (n + 1) = C * (n / C) + (n % C + 1) := by
    have := Nat.div_add_mod n C
    omega
  split
  · have h1 : n % C + 1 = C := by omega
    have h2 : n + 1 = C * (n / C + 1) := by rw [Nat.mul_add, Nat.mul_one]; omega
    rw [h2, Nat.mul_mod_right]
  · have h3 : n % C + 1 < C := by omega
    rw [hn, Nat.mul_add_mod, Nat.mod_eq_of_lt h3]

theorem mod_ne_of_lt_of_lt (j n C : Nat) (h1 : j < n) (h2 : n < j + C) :
    j % C ≠ n % C := by
  intro h
  have h3 := Nat.sub_mod_eq_zero_of_mod_eq h.symm
  have h4 : C ∣ n - j := Nat.dvd_of_mod_eq_zero h3
  have h5 := Nat.eq_zero_of_dvd_of_lt h4 (by omega)
  omega

theorem entryAt_push (g : Globals) (c : Int) (ts : Nat) (i : Nat)
    (hb : g.sample_busy = false)
    (hs : g.sample_tail < g.samples.length)
    (ht : g.sample_tail < g.sample_times.length) :
    entryAt (push g c ts) i =
      if i = g.sample_tail then some (c, ts) else entryAt g i := by
  unfold entryAt push
  simp only [hb, Bool.false_eq_true, if_false]
  by_cases hi : i = g.sample_tail
  · subst hi
    simp [List.getElem?_set_self hs, List.getElem?_set_self ht]
  · have hi2 : g.sample_tail ≠ i := fun h => hi h.symm
    simp [hi, List.getElem?_set_ne hi2]

theorem pushes_snoc (g : Globals) (ps : List (Int × Nat)) (p : Int × Nat) :
    pushes g (ps ++ [p]) = push (pushes g ps) p.1 p.2 := by
  simp [pushes, List.foldl_append]

theorem filterMap_range_getElem? {α : Type} (l : List α) :
    (List.range l.length).filterMap (fun k => l[k]?) = l := by
  induction l with
  | nil => simp
  | cons a l ih =>
    rw [List.length_cons, List.range_succ_eq_map, List.filterMap_cons]
    simp only [List.getElem?_cons_zero, List.filterMap_map]
    have : ((fun k => (a :: l)[k]?) ∘ Nat.succ) = (fun k => l[k]?) := by
      funext k; simp
    rw [this, ih]

theorem push_of_not_busy (g : Globals) (c : Int) (ts : Nat)
    (hb : g.sample_busy = false) :
    push g c ts =
      { sample_len := g.sample_len,
        samples := g.samples.set g.sample_tail c,
        sample_times := g.sample_times.set g.sample_tail ts,
        sample_head :=
          if (if g.sample_tail + 1 ≥ g.sample_len then 0 else g.sample_tail + 1)
              = g.sample_head then
            (if g.sample_head + 1 ≥ g.sample_len then 0 else g.sample_head + 1)
          else g.sample_head,
        sample_tail :=
          if g.sample_tail + 1 ≥ g.sample_len then 0 else g.sample_tail + 1,
        sample_busy := false } := by
  simp [push, hb]

/-- The state reached from `startup` by the writes `ps`, for a capacity of at
least two: where the indices are and what the arrays hold. -/
theorem pushes_inv (C : Nat) (hC : 2 ≤ C) (mem : List Int) (tmem : List Nat)
    (hm : mem.length = C) (ht : tmem.length = C) (ps : List (Int × Nat)) :
    (pushes (startup C mem tmem) ps).sample_len = C ∧
    (pushes (startup C mem tmem) ps).samples.length = C ∧
    (pushes (startup C mem tmem) ps).sample_times.length = C ∧
    (pushes (startup C mem tmem) ps).sample_busy = false ∧
    (pushes (startup C mem tmem) ps).sample_tail = ps.length % C ∧
    (pushes (startup C mem tmem) ps).sample_head =
      (if ps.length < C then 0 else (ps.length + 1) % C) ∧
    ∀ j, j < ps.length → ps.length ≤ j + C →
      entryAt (pushes (startup C mem tmem) ps) (j % C) = ps[j]? := by
  induction ps using List.reverseRecOn with
  | nil =>
    have hC0 : 0 < C := by omega
    refine ⟨rfl, hm, ht, rfl, ?_, ?_, ?_⟩
    · simp [pushes, startup]
    · simp [pushes, startup, hC0]
    · intro j hj; simp at hj
  | append_singleton ps p ih =>
    obtain ⟨hlen, hsl, htl, hb, htail, hhead, hent⟩ := ih
    have hC0 : 0 < C := by omega
    have htlt : (pushes (startup C mem tmem) ps).sample_tail < C := by
      rw [htail]; exact Nat.mod_lt _ hC0
    have hent2 := fun i => entryAt_push (pushes (startup C mem tmem) ps) p.1 p.2 i hb
      (by rw [hsl]; exact htlt) (by rw [htl]; exact htlt)
    rw [pushes_snoc]
    rw [push_of_not_busy _ _ _ hb] at hent2 ⊢
    have hw := wrap_succ ps.length C hC0
    simp only [List.length_append, List.length_singleton, List.length_set,
      hlen, htail, hhead, hw] at hent2 ⊢
    refine ⟨trivial, hsl, htl, trivial, trivial, ?_, ?_⟩
    · by_cases h1 : ps.length + 1 < C
      · have h2 : ps.length < C := by omega
        have h3 : (ps.length + 1) % C = ps.length + 1 := Nat.mod_eq_of_lt h1
        simp [h1, h2, h3]
      · by_cases h2 : ps.length < C
        · have h4 : ps.length + 1 = C := by omega
          have h5 : (ps.length + 1 + 1) % C = 1 := by
            have h6 : 1 < C := by omega
            rw [h4, Nat.add_mod_left]
            exact Nat.mod_eq_of_lt h6
          simp only [h1, h2, if_true, if_false, h5]
          rw [h4, Nat.mod_self]
          simp
          omega
        · simp only [h1, h2, if_true, if_false]
          exact wrap_succ (ps.length + 1) C hC0
    · intro j hj hjC
      rw [hent2]
      by_cases hjn : j = ps.length
      · subst hjn
        simp
      · have hj2 : j < ps.length := by omega
        have hne := mod_ne_of_lt_of_lt j ps.length C hj2 (by omega)
        rw [if_neg hne, hent j hj2 (by omega)]
        rw [List.getElem?_append_left hj2]

/-- After any number of writes from `startup` (capacity at least two) the
live entries are the last `C - 1` written ones, or all of them when fewer
were written. -/
theorem live_pushes (C : Nat) (hC : 2 ≤ C) (mem : List Int) (tmem : List Nat)
    (hm : mem.length = C) (ht : tmem.length = C) (ps : List (Int × Nat)) :
    liveCount (pushes (startup C mem tmem) ps) = min ps.length (C - 1) ∧
    live (pushes (startup C mem tmem) ps) = ps.drop (ps.length - (C - 1)) := by
  obtain ⟨hlen, -, -, -, htail, hhead, hent⟩ := pushes_inv C hC mem tmem hm ht ps
  have hC0 : 0 < C := by omega
  have hcount : liveCount (pushes (startup C mem tmem) ps) = min ps.length (C - 1) := by
    unfold liveCount
    rw [hlen, htail, hhead]
    by_cases h : ps.length < C
    · rw [if_pos h, Nat.sub_zero, Nat.add_mod_right, Nat.mod_mod,
        Nat.mod_eq_of_lt h]
      omega
    · rw [if_neg h, ← wrap_succ ps.length C hC0]
      have hr := Nat.mod_lt ps.length hC0
      split
      · have h1 : ps.length % C + C - 0 = (C - 1) + C := by omega
        have h2 : C - 1 < C := by omega
        rw [h1, Nat.add_mod_right, Nat.mod_eq_of_lt h2]
        omega
      · have h1 : ps.length % C + C - (ps.length % C + 1) = C - 1 := by omega
        have h2 : C - 1 < C := by omega
        rw [h1, Nat.mod_eq_of_lt h2]
        omega
  refine ⟨hcount, ?_⟩
  unfold live
  rw [hcount, hlen]
  have hidx : ∀ i ∈ List.range (min ps.length (C - 1)),
      entryAt (pushes (startup C mem tmem) ps)
        (((pushes (startup C mem tmem) ps).sample_head + i) % C) =
      (ps.drop (ps.length - (C - 1)))[i]? := by
    intro i hi
    rw [List.mem_range] at hi
    rw [List.getElem?_drop]
    have hmod : ((pushes (startup C mem tmem) ps).sample_head + i) % C =
        (ps.length - (C - 1) + i) % C := by
      rw [hhead]
      by_cases h : ps.length < C
      · rw [if_pos h]
        have : ps.length - (C - 1) = 0 := by omega
        rw [this]
      · rw [if_neg h, Nat.mod_add_mod]
        have : ps.length + 1 + i = (ps.length - (C - 1) + i) + C := by omega
        rw [this, Nat.add_mod_right]
    rw [hmod]
    exact hent _ (by omega) (by omega)
  rw [List.filterMap_congr hidx]
  have hl : min ps.length (C - 1) = (ps.drop (ps.length - (C - 1))).length := by
    rw [List.length_drop]; omega
  rw [hl]
  exact filterMap_range_getElem? _

/-- C1. Ring overwrite law: from the empty buffer of capacity `C ≥ 2`, after
`C + k` writes with `k ≥ 1` the live count `(tail - head + C) mod C` is
`C - 1`, the live entries read from head to tail are the pushed pairs without
their first `k + 1` (so the last `C - 1` in push order), and those `k + 1`
oldest ones followed by the live entries are the whole push sequence. -/
theorem ring_overwrite_law (C k : Nat) (hC : 2 ≤ C) (hk : 1 ≤ k)
    (mem : List Int) (tmem : List Nat)
    (hm : mem.length = C) (ht : tmem.length = C)
    (ps : List (Int × Nat)) (hps : ps.length = C + k) :
    liveCount (pushes (startup C mem tmem) ps) = C - 1 ∧
    live (pushes (startup C mem tmem) ps) = ps.drop (k + 1) ∧
    (live (pushes (startup C mem tmem) ps)).length = C - 1 ∧
    ps.take (k + 1) ++ live (pushes (startup C mem tmem) ps) = ps := by
  obtain ⟨h1, h2⟩ := live_pushes C hC mem tmem hm ht ps
  have h3 : ps.length - (C - 1) = k + 1 := by omega
  rw [h3] at h2
  refine ⟨by rw [h1]; omega, h2, ?_, ?_⟩
  · rw [h2, List.length_drop]; omega
  · rw [h2, List.take_append_drop]

theorem ring_overwrite_law_witness :
    liveCount (pushes (startup 3 [0, 0, 0] [0, 0, 0])
      [(1, 10), (2, 20), (3, 30), (4, 40), (5, 50)]) = 2 ∧
    live (pushes (startup 3 [0, 0, 0] [0, 0, 0])
      [(1, 10), (2, 20), (3, 30), (4, 40), (5, 50)]) = [(4, 40), (5, 50)] ∧
    (live (pushes (startup 3 [0, 0, 0] [0, 0, 0])
      [(1, 10), (2, 20), (3, 30), (4, 40), (5, 50)])).length = 2 ∧
    [(1, 10), (2, 20), (3, 30)] ++ live (pushes (startup 3 [0, 0, 0] [0, 0, 0])
      [(1, 10), (2, 20), (3, 30), (4, 40), (5, 50)]) =
      [(1, 10), (2, 20), (3, 30), (4, 40), (5, 50)] :=
  ring_overwrite_law 3 2 (by decide) (by decide) [0, 0, 0] [0, 0, 0] rfl rfl
    [(1, 10), (2, 20), (3, 30), (4, 40), (5, 50)] rfl

/-- C2, as stated, fails at `n = C`: from the empty buffer of capacity 4, four
writes leave `sample_head = 1`, `sample_tail = 0`, and the length computed by
`plot_points` for `end = sample_tail` is 2, not 4. -/
theorem push_count_fails_at_capacity :
    (pushes (startup 4 [0, 0, 0, 0] [0, 0, 0, 0])
      [(1, 10), (2, 20), (3, 30), (4, 40)]).sample_head = 1 ∧
    (pushes (startup 4 [0, 0, 0, 0] [0, 0, 0, 0])
      [(1, 10), (2, 20), (3, 30), (4, 40)]).sample_tail = 0 ∧
    rangeLen (pushes (startup 4 [0, 0, 0, 0] [0, 0, 0, 0])
        [(1, 10), (2, 20), (3, 30), (4, 40)])
      (pushes (startup 4 [0, 0, 0, 0] [0, 0, 0, 0])
        [(1, 10), (2, 20), (3, 30), (4, 40)]).sample_tail = 2 ∧
    ¬ rangeLen (pushes (startup 4 [0, 0, 0, 0] [0, 0, 0, 0])
        [(1, 10), (2, 20), (3, 30), (4, 40)])
      (pushes (startup 4 [0, 0, 0, 0] [0, 0, 0, 0])
        [(1, 10), (2, 20), (3, 30), (4, 40)]).sample_tail = 4 := by
  decide

/-- C2, amended. Push count law: from the empty buffer of capacity `C`, for
every `n < C`, after `n` writes the length computed by `plot_points` for
`end = sample_tail` equals `n`. -/
theorem push_count_law (C n : Nat) (hn : n < C)
    (mem : List Int) (tmem : List Nat)
    (hm : mem.length = C) (ht : tmem.length = C)
    (ps : List (Int × Nat)) (hps : ps.length = n) :
    rangeLen (pushes (startup C mem tmem) ps)
      (pushes (startup C mem tmem) ps).sample_tail = n := by
  by_cases hC : 2 ≤ C
  · obtain ⟨-, -, -, -, htail, hhead, -⟩ := pushes_inv C hC mem tmem hm ht ps
    have hlt : ps.length < C := by omega
    unfold rangeLen
    rw [htail, hhead, if_pos hlt, Nat.mod_eq_of_lt hlt, hps]
    simp
  · have h0 : n = 0 := by omega
    subst h0
    have : ps = [] := List.length_eq_zero.mp hps
    subst this
    simp [pushes, startup, rangeLen]

theorem push_count_law_witness :
    rangeLen (pushes (startup 4 [0, 0, 0, 0] [0, 0, 0, 0])
        [(1, 10), (2, 20), (3, 30)])
      (pushes (startup 4 [0, 0, 0, 0] [0, 0, 0, 0])
        [(1, 10), (2, 20), (3, 30)]).sample_tail = (3 : Nat) :=
  push_count_law 4 3 (by decide) [0, 0, 0, 0] [0, 0, 0, 0] rfl rfl
    [(1, 10), (2, 20), (3, 30)] rfl

theorem wrap_succ_of_lt (i C : Nat) (h : i < C) :
    (if i + 1 ≥ C then 0 else i + 1) = (i + 1) % C := by
  have := wrap_succ i C (by omega)
  rwa [Nat.mod_eq_of_lt h] at this

/-- A packet read in full that decodes to at most `MAXVAL` reaches the write
step of lines 436-451 with the decoded value and the time of line 412. -/
theorem locked_iter_write (clock : Nat → Timeval) (g : Globals) (b0 b1 b2 : Byte)
    (rest : List (Option Byte)) (nr nt : Nat) (log : List (Int × Nat))
    (hc : decode b0 b1 ≤ MAXVAL) :
    locked_iter clock ⟨g, some b0 :: some b1 :: some b2 :: rest, nr, nt, log⟩ =
      .next .locked ⟨push g (decode b0 b1) (usec (clock nt)), rest, nr + 3, nt + 1,
        if g.sample_busy then log else log ++ [(decode b0 b1, usec (clock nt))]⟩ := by
  have hc2 : ¬ decode b0 b1 > MAXVAL := not_lt.mpr hc
  simp [locked_iter, readByte, afterRead, hc2]

/-- C9. Busy-flag drop: a packet read in full that decodes to a value in
range takes the ingest path to the write step `push`; on a buffer whose
indices lie in `[0, C)`, that step leaves every global unchanged when
`sample_busy` is set; when it is clear, `c` and `ts` are stored at the old
tail, the other entries are untouched, the tail becomes `(tail + 1) mod C`,
and the head becomes `(head + 1) mod C` exactly when the new tail equals the
head. -/
theorem push_busy_flag_drop (g : Globals) (c : Int) (ts : Nat) (hv : g.Valid) :
    (∀ (clock : Nat → Timeval) (b0 b1 b2 : Byte) (rest : List (Option Byte))
        (nr nt : Nat) (log : List (Int × Nat)), decode b0 b1 ≤ MAXVAL →
      locked_iter clock ⟨g, some b0 :: some b1 :: some b2 :: rest, nr, nt, log⟩ =
        .next .locked ⟨push g (decode b0 b1) (usec (clock nt)), rest, nr + 3, nt + 1,
          if g.sample_busy then log else log ++ [(decode b0 b1, usec (clock nt))]⟩) ∧
    (g.sample_busy = true → push g c ts = g) ∧
    (g.sample_busy = false →
      (push g c ts).samples[g.sample_tail]? = some c ∧
      (push g c ts).sample_times[g.sample_tail]? = some ts ∧
      (∀ i, i ≠ g.sample_tail →
        (push g c ts).samples[i]? = g.samples[i]? ∧
        (push g c ts).sample_times[i]? = g.sample_times[i]?) ∧
      (push g c ts).sample_tail = (g.sample_tail + 1) % g.sample_len ∧
      (push g c ts).sample_head =
        (if (g.sample_tail + 1) % g.sample_len = g.sample_head
          then (g.sample_head + 1) % g.sample_len else g.sample_head) ∧
      (push g c ts).sample_len = g.sample_len ∧
      (push g c ts).sample_busy = false) := by
  obtain ⟨hs, ht, hh, htl⟩ := hv
  refine ⟨fun clock b0 b1 b2 rest nr nt log hc =>
    locked_iter_write clock g b0 b1 b2 rest nr nt log hc, ?_, ?_⟩
  · intro hb
    simp [push, hb]
  · intro hb
    rw [push_of_not_busy g c ts hb]
    simp only [wrap_succ_of_lt _ _ hh, wrap_succ_of_lt _ _ htl]
    refine ⟨?_, ?_, ?_, trivial, trivial, trivial, trivial⟩
    · exact List.getElem?_set_self (by rw [hs]; exact htl)
    · exact List.getElem?_set_self (by rw [ht]; exact htl)
    · intro i hi
      exact ⟨List.getElem?_set_ne (fun h => hi h.symm),
        List.getElem?_set_ne (fun h => hi h.symm)⟩

theorem push_busy_flag_drop_witness :
    (threeSamples 0).Valid ∧
    (push (threeSamples 0) 5 6000).sample_tail = 0 ∧
    (push (threeSamples 0) 5 6000).sample_head = 1 :=
  ⟨by decide,
   ((push_busy_flag_drop (threeSamples 0) 5 6000 (by decide)).2.2 rfl).2.2.2.1,
   ((push_busy_flag_drop (threeSamples 0) 5 6000 (by decide)).2.2 rfl).2.2.2.2.1⟩

/-! ## Theorems: the ingest loop -/

theorem calibrate_iter_skip (g : Globals) (b : Byte) (rest : List (Option Byte))
    (nr nt : Nat) (log : List (Int × Nat)) (hb : b ≠ 0xFF) :
    calibrate_iter ⟨g, some b :: rest, nr, nt, log⟩ =
      .next .searching ⟨g, rest, nr + 1, nt, log⟩ := by
  simp [calibrate_iter, readByte, hb]

theorem calibrate_iter_sentinel (g : Globals) (r2 r3 : Option Byte)
    (rest : List (Option Byte)) (nr nt : Nat) (log : List (Int × Nat)) :
    calibrate_iter ⟨g, some 0xFF :: r2 :: r3 :: some 0xFF :: rest, nr, nt, log⟩ =
      .next .locked ⟨g, rest, nr + 4, nt, log⟩ := by
  simp [calibrate_iter, readByte]

theorem locked_iter_packet (clock : Nat → Timeval) (g : Globals) (b0 b1 b2 : Byte)
    (rest : List (Option Byte)) (nr nt : Nat) (log : List (Int × Nat))
    (hb : g.sample_busy = false) (hc : decode b0 b1 ≤ MAXVAL) :
    locked_iter clock ⟨g, some b0 :: some b1 :: some b2 :: rest, nr, nt, log⟩ =
      .next .locked ⟨push g (decode b0 b1) (usec (clock nt)), rest, nr + 3, nt + 1,
        log ++ [(decode b0 b1, usec (clock nt))]⟩ := by
  have hc2 : ¬ decode b0 b1 > MAXVAL := not_lt.mpr hc
  simp [locked_iter, readByte, afterRead, hc2, hb]

theorem locked_iter_reject (clock : Nat → Timeval) (g : Globals) (b0 b1 b2 : Byte)
    (rest : List (Option Byte)) (nr nt : Nat) (log : List (Int × Nat))
    (hc : decode b0 b1 > MAXVAL) :
    locked_iter clock ⟨g, some b0 :: some b1 :: some b2 :: rest, nr, nt, log⟩ =
      .next .searching ⟨g, rest, nr + 3, nt + 1, log⟩ := by
  simp [locked_iter, readByte, afterRead, hc]

theorem locked_iter_eof (clock : Nat → Timeval) (g : Globals)
    (nr nt : Nat) (log : List (Int × Nat)) :
    locked_iter clock ⟨g, [], nr, nt, log⟩ = .exit .read3 ⟨g, [], nr + 1, nt + 1, log⟩ := by
  simp [locked_iter, readByte]

theorem push_busy_eq (g : Globals) (c : Int) (ts : Nat) :
    (push g c ts).sample_busy = g.sample_busy := by
  unfold push
  split <;> simp_all

theorem run_succ_next (clock : Nat → Timeval) (fuel : Nat) (p p1 : Phase)
    (st st1 : Ingest) (h : step clock p st = .next p1 st1) :
    run clock (fuel + 1) p st = run clock fuel p1 st1 := by
  simp [run, h]

theorem run_succ_exit (clock : Nat → Timeval) (fuel : Nat) (p : Phase) (f : Fatal)
    (st st1 : Ingest) (h : step clock p st = .exit f st1) :
    run clock (fuel + 1) p st = .exited f st1 := by
  simp [run, h]

/-- Searching discards a run of bytes other than `0xFF`, one pass each. -/
theorem run_skip (clock : Nat → Timeval) (G : List Byte) (hG : ∀ b ∈ G, b ≠ 0xFF)
    (fuel : Nat) (g : Globals) (rest : List (Option Byte)) (nr nt : Nat)
    (log : List (Int × Nat)) :
    run clock (G.length + fuel) .searching ⟨g, G.map some ++ rest, nr, nt, log⟩ =
      run clock fuel .searching ⟨g, rest, nr + G.length, nt, log⟩ := by
  induction G generalizing nr with
  | nil => simp
  | cons b G ih =>
    have hb : b ≠ 0xFF := hG b (List.mem_cons_self _ _)
    have hG2 : ∀ x ∈ G, x ≠ 0xFF := fun x hx => hG x (List.mem_cons_of_mem _ hx)
    have hf : (b :: G).length + fuel = (G.length + fuel) + 1 := by
      simp only [List.length_cons]; omega
    have hs : step clock .searching ⟨g, some b :: (G.map some ++ rest), nr, nt, log⟩ =
        .next .searching ⟨g, G.map some ++ rest, nr + 1, nt, log⟩ :=
      calibrate_iter_skip g b (G.map some ++ rest) nr nt log hb
    rw [hf, List.map_cons, List.cons_append, run_succ_next clock _ _ _ _ _ hs,
      ih hG2 (nr + 1)]
    simp only [List.length_cons]
    congr 2
    omega

/-- The packet loop stores one pair for each packet that decodes to at most
`MAXVAL`, one pass each. -/
theorem run_packets (clock : Nat → Timeval) (Ps : List (Byte × Byte × Byte))
    (hPs : ∀ p ∈ Ps, decode p.1 p.2.1 ≤ MAXVAL)
    (fuel : Nat) (g : Globals) (hb : g.sample_busy = false)
    (rest : List (Option Byte)) (nr nt : Nat) (log : List (Int × Nat)) :
    run clock (Ps.length + fuel) .locked ⟨g, packetBytes Ps ++ rest, nr, nt, log⟩ =
      run clock fuel .locked
        ⟨pushes g (decoded clock nt Ps), rest, nr + 3 * Ps.length, nt + Ps.length,
          log ++ decoded clock nt Ps⟩ := by
  induction Ps generalizing g nr nt log with
  | nil => simp [packetBytes, decoded, pushes]
  | cons p Ps ih =>
    obtain ⟨b0, b1, b2⟩ := p
    have hp : decode b0 b1 ≤ MAXVAL := hPs (b0, b1, b2) (List.mem_cons_self _ _)
    have hPs2 : ∀ x ∈ Ps, decode x.1 x.2.1 ≤ MAXVAL :=
      fun x hx => hPs x (List.mem_cons_of_mem _ hx)
    have hf : ((b0, b1, b2) :: Ps).length + fuel = (Ps.length + fuel) + 1 := by
      simp only [List.length_cons]; omega
    have hb2 : (push g (decode b0 b1) (usec (clock nt))).sample_busy = false := by
      rw [push_busy_eq, hb]
    rw [hf]
    simp only [packetBytes, List.cons_append]
    have hs : step clock .locked
        ⟨g, some b0 :: some b1 :: some b2 :: (packetBytes Ps ++ rest), nr, nt, log⟩ =
        .next .locked ⟨push g (decode b0 b1) (usec (clock nt)), packetBytes Ps ++ rest,
          nr + 3, nt + 1, log ++ [(decode b0 b1, usec (clock nt))]⟩ :=
      locked_iter_packet clock g b0 b1 b2 (packetBytes Ps ++ rest) nr nt log hb hp
    rw [run_succ_next clock _ _ _ _ _ hs, ih hPs2 _ hb2 (nr + 3) (nt + 1)]
    simp only [List.length_cons, decoded, pushes, List.foldl_cons, List.append_assoc,
      List.singleton_append]
    have e1 : nr + 3 + 3 * Ps.length = nr + 3 * (Ps.length + 1) := by omega
    have e2 : nt + 1 + Ps.length = nt + (Ps.length + 1) := by omega
    rw [e1, e2]

theorem decoded_values (clock : Nat → Timeval) (k : Nat) (Ps : List (Byte × Byte × Byte)) :
    (decoded clock k Ps).map Prod.fst = Ps.map (fun p => decode p.1 p.2.1) ∧
    (decoded clock k Ps).length = Ps.length := by
  induction Ps generalizing k with
  | nil => simp [decoded]
  | cons p Ps ih =>
    obtain ⟨b0, b1, b2⟩ := p
    simp [decoded, (ih (k + 1)).1, (ih (k + 1)).2]

/-- C3, as stated, fails when the garbage holds a `0xFF`: on the stream
`FF ++ [FF,FF,FF,FF] ++ (0,5,0)` the search takes the garbage byte and three
sentinel bytes for the sentinel, the packet loop then reads `FF 00 05`, decodes
`0xFF00`, goes back to searching, and the stream ends with nothing stored. -/
theorem frame_decode_fails_on_ff_garbage :
    (ingest tick 9 (startup 4 [0, 0, 0, 0] [0, 0, 0, 0])
      ([(0xFF : Byte)].map some ++ sentinel ++ packetBytes [(0, 5, 0)])) =
      .exited .read1 ⟨startup 4 [0, 0, 0, 0] [0, 0, 0, 0], [], 9, 1, []⟩ ∧
    ¬ ((ingest tick 9 (startup 4 [0, 0, 0, 0] [0, 0, 0, 0])
      ([(0xFF : Byte)].map some ++ sentinel ++ packetBytes [(0, 5, 0)])).st.stored.length
        = [((0 : Byte), (5 : Byte), (0 : Byte))].length) := by
  decide

/-- C3, amended. Frame decode law: on a stream `G ++ [0xFF,0xFF,0xFF,0xFF] ++
P1 ++ ... ++ PN` whose garbage `G` holds no `0xFF` byte and whose packets
decode to at most `MAXVAL`, the ingest path with the busy flag clear, given
fuel for `|G| + N + 2` passes, stores exactly `N` pairs, the `i`-th value
being `(b0 << 8) | b1` of `Pi` whatever `b2` is, and then leaves through the
failed read at the end of the stream, the first read that fails. -/
theorem frame_decode_law (clock : Nat → Timeval) (g : Globals)
    (hb : g.sample_busy = false) (G : List Byte) (hG : ∀ b ∈ G, b ≠ 0xFF)
    (Ps : List (Byte × Byte × Byte)) (hPs : ∀ p ∈ Ps, decode p.1 p.2.1 ≤ MAXVAL)
    (fuel : Nat) (hfuel : G.length + Ps.length + 2 ≤ fuel) :
    ingest clock fuel g (G.map some ++ sentinel ++ packetBytes Ps) =
      .exited .read3
        ⟨pushes g (decoded clock 0 Ps), [], G.length + 4 + 3 * Ps.length + 1,
          Ps.length + 1, decoded clock 0 Ps⟩ ∧
    (decoded clock 0 Ps).length = Ps.length ∧
    (decoded clock 0 Ps).map Prod.fst = Ps.map (fun p => decode p.1 p.2.1) := by
  refine ⟨?_, (decoded_values clock 0 Ps).2, (decoded_values clock 0 Ps).1⟩
  obtain ⟨extra, rfl⟩ : ∃ e, fuel = G.length + ((Ps.length + (e + 1)) + 1) :=
    ⟨fuel - (G.length + Ps.length + 2), by omega⟩
  have hs : step clock .searching
      ⟨g, some 0xFF :: some 0xFF :: some 0xFF :: some 0xFF :: (packetBytes Ps ++ []),
        0 + G.length, 0, []⟩ =
      .next .locked ⟨g, packetBytes Ps ++ [], 0 + G.length + 4, 0, []⟩ :=
    calibrate_iter_sentinel g _ _ _ _ _ _
  have he : step clock .locked
      ⟨pushes g (decoded clock 0 Ps), [], 0 + G.length + 4 + 3 * Ps.length,
        0 + Ps.length, [] ++ decoded clock 0 Ps⟩ =
      .exit .read3 ⟨pushes g (decoded clock 0 Ps), [], 0 + G.length + 4 + 3 * Ps.length + 1,
        0 + Ps.length + 1, [] ++ decoded clock 0 Ps⟩ :=
    locked_iter_eof clock _ _ _ _
  unfold ingest ingestStart
  rw [List.append_assoc, run_skip clock G hG]
  have e0 : sentinel ++ packetBytes Ps =
      some 0xFF :: some 0xFF :: some 0xFF :: some 0xFF :: (packetBytes Ps ++ []) := by
    simp [sentinel]
  rw [e0, run_succ_next clock _ _ _ _ _ hs, run_packets clock Ps hPs _ g hb,
    run_succ_exit clock _ _ _ _ _ he]
  simp

theorem frame_decode_law_witness :
    ingest tick 5 (startup 4 [0, 0, 0, 0] [0, 0, 0, 0])
        ([(7 : Byte)].map some ++ sentinel ++ packetBytes [(0, 5, 9), (1, 2, 3)]) =
      .exited .read3
        ⟨pushes (startup 4 [0, 0, 0, 0] [0, 0, 0, 0]) [(5, 0), (258, 1000000)], [],
          12, 3, [(5, 0), (258, 1000000)]⟩ ∧
    [((5 : Int), (0 : Nat)), (258, 1000000)].length = 2 ∧
    [((5 : Int), (0 : Nat)), (258, 1000000)].map Prod.fst = [5, 258] :=
  frame_decode_law tick (startup 4 [0, 0, 0, 0] [0, 0, 0, 0]) rfl [7] (by simp)
    [(0, 5, 9), (1, 2, 3)] (by simp; decide) 5 (by decide)

theorem pushes_busy_eq (g : Globals) (ps : List (Int × Nat)) :
    (pushes g ps).sample_busy = g.sample_busy := by
  induction ps generalizing g with
  | nil => rfl
  | cons p ps ih =>
    simp only [pushes, List.foldl_cons] at ih ⊢
    rw [ih, push_busy_eq]

theorem pushes_append (g : Globals) (l1 l2 : List (Int × Nat)) :
    pushes g (l1 ++ l2) = pushes (pushes g l1) l2 := by
  simp [pushes, List.foldl_append]

/-- C5. Resync round trip: on the stream `[0xFF,0xFF,0xFF,0xFF] ++ A ++ [bad]
++ [0xFF,0xFF,0xFF,0xFF] ++ B`, with the packets of `A` and `B` decoding to at
most `MAXVAL` and `bad` decoding to more, the ingest path with the busy flag
clear is, after the pass that reads `bad`, back in the search with the three
bytes of `bad` consumed, no exit taken and only the pairs of `A` stored; run
on, it stores the values of `A` followed by those of `B`, in order, and leaves
only through the failed read at the end of the stream. -/
theorem resync_round_trip (clock : Nat → Timeval) (g : Globals)
    (hb : g.sample_busy = false)
    (A B : List (Byte × Byte × Byte))
    (hA : ∀ p ∈ A, decode p.1 p.2.1 ≤ MAXVAL)
    (hB : ∀ p ∈ B, decode p.1 p.2.1 ≤ MAXVAL)
    (x0 x1 x2 : Byte) (hx : decode x0 x1 > MAXVAL)
    (fuel : Nat) (hfuel : A.length + B.length + 4 ≤ fuel) :
    run clock (A.length + 2) .searching
        (ingestStart g (sentinel ++ packetBytes A ++ [some x0, some x1, some x2]
          ++ sentinel ++ packetBytes B)) =
      .running .searching
        ⟨pushes g (decoded clock 0 A), sentinel ++ packetBytes B,
          4 + 3 * A.length + 3, A.length + 1, decoded clock 0 A⟩ ∧
    ingest clock fuel g (sentinel ++ packetBytes A ++ [some x0, some x1, some x2]
          ++ sentinel ++ packetBytes B) =
      .exited .read3
        ⟨pushes g (decoded clock 0 A ++ decoded clock (A.length + 1) B), [],
          4 + 3 * A.length + 3 + 4 + 3 * B.length + 1, A.length + 1 + B.length + 1,
          decoded clock 0 A ++ decoded clock (A.length + 1) B⟩ ∧
    (decoded clock 0 A ++ decoded clock (A.length + 1) B).map Prod.fst =
      A.map (fun p => decode p.1 p.2.1) ++ B.map (fun p => decode p.1 p.2.1) := by
  have hin : sentinel ++ packetBytes A ++ [some x0, some x1, some x2]
        ++ sentinel ++ packetBytes B =
      some 0xFF :: some 0xFF :: some 0xFF :: some 0xFF ::
        (packetBytes A ++ (some x0 :: some x1 :: some x2 ::
          (sentinel ++ packetBytes B))) := by
    simp [sentinel]
  have hs1 : step clock .searching
      ⟨g, some 0xFF :: some 0xFF :: some 0xFF :: some 0xFF ::
        (packetBytes A ++ (some x0 :: some x1 :: some x2 ::
          (sentinel ++ packetBytes B))), 0, 0, []⟩ =
      .next .locked ⟨g, packetBytes A ++ (some x0 :: some x1 :: some x2 ::
          (sentinel ++ packetBytes B)), 0 + 4, 0, []⟩ :=
    calibrate_iter_sentinel g _ _ _ _ _ _
  have hs2 : step clock .locked
      ⟨pushes g (decoded clock 0 A), some x0 :: some x1 :: some x2 ::
          (sentinel ++ packetBytes B), 0 + 4 + 3 * A.length, 0 + A.length,
          [] ++ decoded clock 0 A⟩ =
      .next .searching ⟨pushes g (decoded clock 0 A), sentinel ++ packetBytes B,
          0 + 4 + 3 * A.length + 3, 0 + A.length + 1, [] ++ decoded clock 0 A⟩ :=
    locked_iter_reject clock _ x0 x1 x2 _ _ _ _ hx
  have hfront : ∀ f, run clock (A.length + 2 + f) .searching
        (ingestStart g (sentinel ++ packetBytes A ++ [some x0, some x1, some x2]
          ++ sentinel ++ packetBytes B)) =
      run clock f .searching
        ⟨pushes g (decoded clock 0 A), sentinel ++ packetBytes B,
          4 + 3 * A.length + 3, A.length + 1, decoded clock 0 A⟩ := by
    intro f
    have hf : A.length + 2 + f = (A.length + (f + 1)) + 1 := by omega
    unfold ingestStart
    rw [hin, hf, run_succ_next clock _ _ _ _ _ hs1, run_packets clock A hA _ g hb,
      run_succ_next clock _ _ _ _ _ hs2]
    simp
  refine ⟨?_, ?_, ?_⟩
  · have := hfront 0
    simpa [run] using this
  · obtain ⟨extra, rfl⟩ : ∃ e, fuel = A.length + 2 + ((B.length + (e + 1)) + 1) :=
      ⟨fuel - (A.length + B.length + 4), by omega⟩
    have hb2 : (pushes g (decoded clock 0 A)).sample_busy = false := by
      rw [pushes_busy_eq, hb]
    have hs3 : step clock .searching
        ⟨pushes g (decoded clock 0 A),
          some 0xFF :: some 0xFF :: some 0xFF :: some 0xFF :: (packetBytes B ++ []),
          4 + 3 * A.length + 3, A.length + 1, decoded clock 0 A⟩ =
        .next .locked ⟨pushes g (decoded clock 0 A), packetBytes B ++ [],
          4 + 3 * A.length + 3 + 4, A.length + 1, decoded clock 0 A⟩ :=
      calibrate_iter_sentinel _ _ _ _ _ _ _
    have he : step clock .locked
        ⟨pushes (pushes g (decoded clock 0 A)) (decoded clock (A.length + 1) B), [],
          4 + 3 * A.length + 3 + 4 + 3 * B.length, A.length + 1 + B.length,
          decoded clock 0 A ++ decoded clock (A.length + 1) B⟩ =
        .exit .read3
          ⟨pushes (pushes g (decoded clock 0 A)) (decoded clock (A.length + 1) B), [],
            4 + 3 * A.length + 3 + 4 + 3 * B.length + 1, A.length + 1 + B.length + 1,
            decoded clock 0 A ++ decoded clock (A.length + 1) B⟩ :=
      locked_iter_eof clock _ _ _ _
    have e0 : sentinel ++ packetBytes B =
        some 0xFF :: some 0xFF :: some 0xFF :: some 0xFF :: (packetBytes B ++ []) := by
      simp [sentinel]
    unfold ingest
    rw [hfront, e0, run_succ_next clock _ _ _ _ _ hs3,
      run_packets clock B hB _ _ hb2, run_succ_exit clock _ _ _ _ _ he, pushes_append]
  · rw [List.map_append, (decoded_values clock 0 A).1,
      (decoded_values clock (A.length + 1) B).1]

theorem resync_round_trip_witness :
    run tick 3 .searching
        (ingestStart (startup 4 [0, 0, 0, 0] [0, 0, 0, 0])
          (sentinel ++ packetBytes [(0, 5, 9)] ++ [some 8, some 0, some 1]
            ++ sentinel ++ packetBytes [(1, 2, 3)])) =
      .running .searching
        ⟨pushes (startup 4 [0, 0, 0, 0] [0, 0, 0, 0]) [(5, 0)],
          sentinel ++ packetBytes [(1, 2, 3)], 10, 2, [(5, 0)]⟩ ∧
    ingest tick 6 (startup 4 [0, 0, 0, 0] [0, 0, 0, 0])
        (sentinel ++ packetBytes [(0, 5, 9)] ++ [some 8, some 0, some 1]
          ++ sentinel ++ packetBytes [(1, 2, 3)]) =
      .exited .read3
        ⟨pushes (startup 4 [0, 0, 0, 0] [0, 0, 0, 0]) [(5, 0), (258, 2000000)], [],
          18, 4, [(5, 0), (258, 2000000)]⟩ ∧
    [((5 : Int), (0 : Nat)), (258, 2000000)].map Prod.fst = [5, 258] :=
  resync_round_trip tick (startup 4 [0, 0, 0, 0] [0, 0, 0, 0]) rfl
    [(0, 5, 9)] [(1, 2, 3)] (by simp; decide) (by simp; decide) 8 0 1 (by decide) 6
    (by decide)

theorem readByte_frame (st : Ingest) :
    (readByte st).2.g = st.g ∧ (readByte st).2.stored = st.stored ∧
    (readByte st).2.ntimes = st.ntimes ∧
    (readByte st).2.input.length ≤ st.input.length ∧
    (∀ b, (readByte st).1 = some b → (readByte st).2.input.length < st.input.length) := by
  unfold readByte
  cases st.input with
  | nil => simp
  | cons r rest => simp

/-- A pass that does not exit appends to the record of stored pairs what it
writes into the buffer, stores only values in `[0, MAXVAL]`, and uses up at
least one read result. -/
theorem step_next_inv (clock : Nat → Timeval) (p p1 : Phase) (st st1 : Ingest)
    (h : step clock p st = .next p1 st1) :
    ∃ new, st1.stored = st.stored ++ new ∧ st1.g = pushes st.g new ∧
      (∀ x ∈ new, 0 ≤ x.1 ∧ x.1 ≤ MAXVAL) ∧
      st1.input.length < st.input.length := by
  obtain ⟨f1g, f1s, f1t, f1l, f1lt⟩ := readByte_frame st
  obtain ⟨f2g, f2s, f2t, f2l, -⟩ := readByte_frame (readByte st).2
  obtain ⟨f3g, f3s, f3t, f3l, -⟩ := readByte_frame (readByte (readByte st).2).2
  obtain ⟨f4g, f4s, f4t, f4l, -⟩ :=
    readByte_frame (readByte (readByte (readByte st).2).2).2
  cases p with
  | searching =>
    refine ⟨[], ?_⟩
    simp only [step, calibrate_iter] at h
    split at h
    · cases h
    · rename_i v st1x heq
      have e1 : (readByte st).1 = some v := by rw [heq]
      have e2 : (readByte st).2 = st1x := by rw [heq]
      have hlt := f1lt v e1
      rw [e2] at f1g f1s f1l f2g f2s f2l f3g f3s f3l f4g f4s f4l hlt
      split at h
      · split at h
        · cases h
        · rename_i v4 st4 heq4
          have e4 : (readByte (readByte (readByte st1x).2).2).2 = st4 := by rw [heq4]
          rw [e4] at f4g f4s f4l
          have hst : st1 = st4 := by
            split at h <;> (cases h; rfl)
          subst hst
          refine ⟨by simp [f4s, f3s, f2s, f1s], ?_, by simp, by omega⟩
          simp [pushes, f4g, f3g, f2g, f1g]
      · cases h
        exact ⟨by simp [f1s], by simp [pushes, f1g], by simp, hlt⟩
  | locked =>
    simp only [step, locked_iter] at h
    split at h
    · cases h
    · rename_i b0 heq
      have hlt := f1lt b0 heq
      split at h
      · cases h
      · rename_i v4 st4 heq4
        obtain ⟨g2g, g2s, -, g2l, -⟩ := readByte_frame
          { g := (readByte st).2.g, input := (readByte st).2.input,
            nreads := (readByte st).2.nreads, ntimes := (readByte st).2.ntimes + 1,
            stored := (readByte st).2.stored }
        obtain ⟨g3g, g3s, -, g3l, -⟩ := readByte_frame (readByte
          { g := (readByte st).2.g, input := (readByte st).2.input,
            nreads := (readByte st).2.nreads, ntimes := (readByte st).2.ntimes + 1,
            stored := (readByte st).2.stored }).2
        rw [heq4] at g3g g3s g3l
        simp only at g2g g2s g2l g3g g3s g3l
        have hg : st4.g = st.g := by rw [g3g, g2g, f1g]
        have hs : st4.stored = st.stored := by rw [g3s, g2s, f1s]
        have hl : st4.input.length < st.input.length := by omega
        generalize (afterRead (readByte
          { g := (readByte st).2.g, input := (readByte st).2.input,
            nreads := (readByte st).2.nreads, ntimes := (readByte st).2.ntimes + 1,
            stored := (readByte st).2.stored }).1 b0) = v at h
        split at h
        · cases h
          exact ⟨[], by simp [hs], by simp [pushes, hg], by simp, hl⟩
        · rename_i hc
          cases h
          by_cases hbusy : st.g.sample_busy = true
          · refine ⟨[], ?_, ?_, by simp, hl⟩
            · simp [hg, hs, hbusy]
            · simp [pushes, push, hg, hbusy]
          · have hbusy2 : st.g.sample_busy = false := by simpa using hbusy
            refine ⟨[(decode b0 v, usec (clock (readByte st).2.ntimes))], ?_, ?_, ?_, hl⟩
            · simp [hg, hs, hbusy2]
            · simp [pushes, hg]
            · intro x hx
              simp only [List.mem_singleton] at hx
              subst hx
              refine ⟨?_, not_lt.mp hc⟩
              simp [decode]

theorem step_exit_inv (clock : Nat → Timeval) (p : Phase) (f : Fatal) (st st1 : Ingest)
    (h : step clock p st = .exit f st1) :
    st1.stored = st.stored ∧ st1.g = st.g := by
  obtain ⟨f1g, f1s, -, -, -⟩ := readByte_frame st
  cases p with
  | searching =>
    obtain ⟨f2g, f2s, -, -, -⟩ := readByte_frame (readByte st).2
    obtain ⟨f3g, f3s, -, -, -⟩ := readByte_frame (readByte (readByte st).2).2
    obtain ⟨f4g, f4s, -, -, -⟩ :=
      readByte_frame (readByte (readByte (readByte st).2).2).2
    simp only [step, calibrate_iter] at h
    split at h
    · rename_i st1x heq
      have e2 : (readByte st).2 = st1x := by rw [heq]
      cases h
      rw [← e2]
      exact ⟨f1s, f1g⟩
    · rename_i v st1x heq
      have e2 : (readByte st).2 = st1x := by rw [heq]
      rw [e2] at f1g f1s f2g f2s f3g f3s f4g f4s
      split at h
      · split at h
        · rename_i st4 heq4
          have e4 : (readByte (readByte (readByte st1x).2).2).2 = st4 := by rw [heq4]
          rw [e4] at f4g f4s
          cases h
          exact ⟨by rw [f4s, f3s, f2s, f1s], by rw [f4g, f3g, f2g, f1g]⟩
        · split at h <;> cases h
      · cases h
  | locked =>
    simp only [step, locked_iter] at h
    obtain ⟨g2g, g2s, -, -, -⟩ := readByte_frame
      { g := (readByte st).2.g, input := (readByte st).2.input,
        nreads := (readByte st).2.nreads, ntimes := (readByte st).2.ntimes + 1,
        stored := (readByte st).2.stored }
    obtain ⟨g3g, g3s, -, -, -⟩ := readByte_frame (readByte
      { g := (readByte st).2.g, input := (readByte st).2.input,
        nreads := (readByte st).2.nreads, ntimes := (readByte st).2.ntimes + 1,
        stored := (readByte st).2.stored }).2
    simp only at g2g g2s
    split at h
    · cases h
      exact ⟨f1s, f1g⟩
    · split at h
      · rename_i st3 heq3
        rw [heq3] at g3g g3s
        simp only at g3g g3s
        cases h
        exact ⟨by rw [g3s, g2s, f1s], by rw [g3g, g2g, f1g]⟩
      · split at h <;> cases h

/-- Whatever the read results, what the ingest path has stored is what it
has written into the buffer, and every stored value lies in `[0, MAXVAL]`. -/
theorem run_inv (clock : Nat → Timeval) (fuel : Nat) (p : Phase) (st : Ingest) :
    ∃ new, (run clock fuel p st).st.stored = st.stored ++ new ∧
      (run clock fuel p st).st.g = pushes st.g new ∧
      (∀ x ∈ new, 0 ≤ x.1 ∧ x.1 ≤ MAXVAL) := by
  induction fuel generalizing p st with
  | zero => exact ⟨[], by simp [run, Outcome.st], by simp [run, Outcome.st, pushes], by simp⟩
  | succ fuel ih =>
    cases hs : step clock p st with
    | exit f st1 =>
      obtain ⟨h1, h2⟩ := step_exit_inv clock p f st st1 hs
      rw [run_succ_exit clock fuel p f st st1 hs]
      exact ⟨[], by simp [Outcome.st, h1], by simp [Outcome.st, h2, pushes], by simp⟩
    | next p1 st1 =>
      obtain ⟨new1, h1, h2, h3, -⟩ := step_next_inv clock p p1 st st1 hs
      obtain ⟨new2, k1, k2, k3⟩ := ih p1 st1
      rw [run_succ_next clock fuel p p1 st st1 hs]
      refine ⟨new1 ++ new2, ?_, ?_, ?_⟩
      · rw [k1, h1, List.append_assoc]
      · rw [k2, h2, pushes_append]
      · intro x hx
        rcases List.mem_append.mp hx with hx | hx
        · exact h3 x hx
        · exact k3 x hx

/-- On a finite list of read results the ingest path leaves through one of
its `exit(1)` paths within one pass more than there are results. -/
theorem run_exits (clock : Nat → Timeval) (fuel : Nat) (p : Phase) (st : Ingest)
    (h : st.input.length < fuel) :
    ∃ f st1, run clock fuel p st = .exited f st1 := by
  induction fuel generalizing p st with
  | zero => omega
  | succ fuel ih =>
    cases hs : step clock p st with
    | exit f st1 => exact ⟨f, st1, run_succ_exit clock fuel p f st st1 hs⟩
    | next p1 st1 =>
      obtain ⟨-, -, -, -, hlt⟩ := step_next_inv clock p p1 st st1 hs
      rw [run_succ_next clock fuel p p1 st st1 hs]
      exact ih p1 st1 (by omega)

/-- C4, as stated, fails at the value `MAXVAL` itself: the packet `(4, 0, 0)`
decodes to 1024, the test of line 433 lets it through, 1024 is written at
`sample_tail` and the loop stays in the packet phase. -/
theorem maxval_itself_is_stored :
    decode 4 0 = MAXVAL ∧
    locked_iter tick
        ⟨startup 4 [0, 0, 0, 0] [0, 0, 0, 0], [some 4, some 0, some 0], 0, 0, []⟩ =
      .next .locked
        ⟨{ sample_len := 4, samples := [1024, 0, 0, 0], sample_times := [0, 0, 0, 0],
           sample_head := 0, sample_tail := 1, sample_busy := false },
          [], 3, 1, [(1024, 0)]⟩ ∧
    ¬ ((1024 : Int) < MAXVAL) := by
  decide

/-- C4, amended. Range rejection threshold: a 3-byte packet read in the packet
loop whose decoded value `(b0 << 8) | b1` is greater than `MAXVAL` writes
nothing into the ring buffer and sends the loop back to the search; and for
every list of read results, the buffer reached by the ingest path is the
starting one with the stored pairs written into it, each stored value lying
in `[0, MAXVAL]`. -/
theorem range_rejection (clock : Nat → Timeval) (g : Globals) (b0 b1 b2 : Byte)
    (rest : List (Option Byte)) (nr nt : Nat) (log : List (Int × Nat))
    (hc : decode b0 b1 > MAXVAL)
    (fuel : Nat) (g0 : Globals) (input : List (Option Byte)) :
    locked_iter clock ⟨g, some b0 :: some b1 :: some b2 :: rest, nr, nt, log⟩ =
      .next .searching ⟨g, rest, nr + 3, nt + 1, log⟩ ∧
    (ingest clock fuel g0 input).st.g = pushes g0 (ingest clock fuel g0 input).st.stored ∧
    ∀ x ∈ (ingest clock fuel g0 input).st.stored, 0 ≤ x.1 ∧ x.1 ≤ MAXVAL := by
  refine ⟨locked_iter_reject clock g b0 b1 b2 rest nr nt log hc, ?_⟩
  obtain ⟨new, h1, h2, h3⟩ := run_inv clock fuel .searching (ingestStart g0 input)
  have h1b : (ingest clock fuel g0 input).st.stored = new := by
    simpa [ingest, ingestStart] using h1
  have h2b : (ingest clock fuel g0 input).st.g = pushes g0 new := by
    simpa [ingest, ingestStart] using h2
  rw [h1b, h2b]
  exact ⟨rfl, h3⟩

theorem range_rejection_witness :
    decode 4 1 > MAXVAL ∧
    locked_iter tick
        ⟨startup 4 [0, 0, 0, 0] [0, 0, 0, 0], [some 4, some 1, some 0, some 9], 0, 0, []⟩ =
      .next .searching ⟨startup 4 [0, 0, 0, 0] [0, 0, 0, 0], [some 9], 3, 1, []⟩ :=
  ⟨by decide,
   (range_rejection tick (startup 4 [0, 0, 0, 0] [0, 0, 0, 0]) 4 1 0 [some 9] 0 0 []
      (by decide) 0 (startup 4 [0, 0, 0, 0] [0, 0, 0, 0]) []).1⟩

/-- C10: the code at two lists of read results with a failed read in them.
In the packet loop the failure of the second read of a packet is overwritten
by the result of the third: after the sentinel, `01`, a failed read and `07`
store the value `0x0101` and the loop goes on to the end of the stream. In the
search the results of the two reads after a `0xFF` are not looked at: `FF`,
two failed reads and `FF` lock, and the packet `(0, 5, 0)` is stored. -/
theorem unchecked_read_failure_goes_on :
    ingest tick 9 (startup 4 [0, 0, 0, 0] [0, 0, 0, 0])
        (sentinel ++ [some 1, none, some 7]) =
      .exited .read3
        ⟨{ sample_len := 4, samples := [257, 0, 0, 0], sample_times := [0, 0, 0, 0],
           sample_head := 0, sample_tail := 1, sample_busy := false },
          [], 8, 2, [(257, 0)]⟩ ∧
    ingest tick 9 (startup 4 [0, 0, 0, 0] [0, 0, 0, 0])
        [some 0xFF, none, none, some 0xFF, some 0, some 5, some 0] =
      .exited .read3
        ⟨{ sample_len := 4, samples := [5, 0, 0, 0], sample_times := [0, 0, 0, 0],
           sample_head := 0, sample_tail := 1, sample_busy := false },
          [], 8, 2, [(5, 0)]⟩ := by
  decide

/-! ## Theorems: the render side -/

theorem wrap32_of_range (x : Int) (h1 : -2147483648 ≤ x) (h2 : x < 2147483648) :
    wrap32 x = x := by
  unfold wrap32
  omega

theorem ringFrom_succ (C e d : Nat) :
    ringFrom C e (d + 1) = e % C :: ringFrom C (e + 1) d := by
  unfold ringFrom
  rw [List.range_succ_eq_map, List.map_cons, List.map_map]
  congr 1
  apply List.map_congr_left
  intro k _
  simp only [Function.comp, Nat.succ_eq_add_one]
  congr 1
  omega

theorem ringFrom_mod (C e d : Nat) : ringFrom C (e % C) d = ringFrom C e d := by
  unfold ringFrom
  apply List.map_congr_left
  intro k _
  exact Nat.mod_add_mod e C k

/-- The loop of lines 178-185, started at an index `e` inside the array with
fuel for the steps from `e` to `sample_tail`, ends at the first index in ring
order from `e` whose timestamp is at least `te`, or at `sample_tail`. -/
theorem find_end_spec (g : Globals) (te : Nat)
    (hlen : g.sample_times.length = g.sample_len) (htail : g.sample_tail < g.sample_len)
    (d : Nat) (fuel e : Nat) (he : e < g.sample_len)
    (hd : ringDist g.sample_len e g.sample_tail = d) (hfuel : d ≤ fuel) :
    find_end g te fuel e =
      .ok (((ringFrom g.sample_len e d).find?
        (fun i => decide (te ≤ g.sample_times.getD i 0))).getD g.sample_tail) := by
  induction d generalizing fuel e with
  | zero =>
    have hee : e = g.sample_tail := by
      unfold ringDist at hd
      split at hd <;> omega
    subst hee
    cases fuel <;> simp [find_end, ringFrom]
  | succ d ih =>
    have hne : e ≠ g.sample_tail := by
      intro h
      rw [h] at hd
      simp [ringDist] at hd
    obtain ⟨f, rfl⟩ : ∃ f, fuel = f + 1 := ⟨fuel - 1, by omega⟩
    have hget : g.sample_times[e]? = some (g.sample_times.getD e 0) := by
      rw [List.getD_eq_getElem?_getD, List.getElem?_eq_getElem (by rw [hlen]; exact he)]
      rfl
    rw [find_end, if_neg hne, hget, ringFrom_succ, Nat.mod_eq_of_lt he]
    simp only
    by_cases ht : g.sample_times.getD e 0 ≥ te
    · rw [if_pos ht]
      have : decide (te ≤ g.sample_times.getD e 0) = true := by simpa using ht
      rw [List.find?_cons, this]
      rfl
    · rw [if_neg ht]
      have hf : decide (te ≤ g.sample_times.getD e 0) = false := by simpa using ht
      rw [List.find?_cons, hf]
      simp only
      rw [wrap_succ_of_lt e g.sample_len he, ← ringFrom_mod g.sample_len (e + 1) d]
      apply ih f ((e + 1) % g.sample_len) (Nat.mod_lt _ (by omega)) _ (by omega)
      rw [← wrap_succ_of_lt e g.sample_len he]
      unfold ringDist at hd ⊢
      split at hd <;> split <;> split <;> omega

theorem threshold_exact (t0 : Nat) (W : Int)
    (hW1 : -2147483648 ≤ W * 1000) (hW2 : W * 1000 < 2147483648)
    (hs1 : 0 ≤ (t0 : Int) + W * 1000)
    (hs2 : (t0 : Int) + W * 1000 < 18446744073709551616) :
    (threshold t0 W : Int) = (t0 : Int) + W * 1000 := by
  unfold threshold mul32
  rw [wrap32_of_range _ hW1 hW2, Int.emod_eq_of_lt hs1 hs2, Int.toNat_of_nonneg hs1]

theorem window_end_spec (fuel : Nat) (opts : plotarg) (g : Globals) (hv : g.Valid)
    (hin : g.sample_head + 1 < g.sample_len) (hfuel : g.sample_len ≤ fuel) :
    window_end fuel opts g =
      .ok (firstAtLeast g
        (threshold (g.sample_times.getD g.sample_head 0) opts.sample_msecs)) := by
  obtain ⟨-, ht, hh, htl⟩ := hv
  have hget : g.sample_times[g.sample_head]? =
      some (g.sample_times.getD g.sample_head 0) := by
    rw [List.getD_eq_getElem?_getD, List.getElem?_eq_getElem (by rw [ht]; exact hh)]
    rfl
  unfold window_end firstAtLeast
  rw [hget]
  simp only
  apply find_end_spec g _ ht htl _ fuel (g.sample_head + 1) hin rfl
  unfold ringDist
  split <;> omega

theorem firstAtLeastInt_cast (g : Globals) (te : Nat) :
    firstAtLeastInt g (te : Int) = firstAtLeast g te := by
  unfold firstAtLeastInt firstAtLeast
  simp only [Nat.cast_le]

/-- C6, as stated, fails where the arithmetic of line 177 leaves the
integers. With timestamps 500, 600, 700 and `W = -1` the sum
`timestamps[head] + W * 1000` is `-500`, which every timestamp reaches, so the
claim gives `end = 1`, while the `uint64_t` threshold is `2 ^ 64 - 500` and
the code chooses `sample_tail = 3`. With `W = 3000000` the `int` product wraps
and with a timestamp of `2 ^ 64 - 1` the `uint64_t` sum wraps: the code chooses
`end = 1` where the claim gives `sample_tail = 3`. -/
theorem window_threshold_wraps :
    (timesExample 500 600 700).Valid ∧
    window_end 4 (optsOf 50 51 (-1)) (timesExample 500 600 700) = .ok 3 ∧
    (doplot 4 (optsOf 50 51 (-1)) (timesExample 500 600 700)).map (fun r => r.2.2) =
      .ok 3 ∧
    firstAtLeastInt (timesExample 500 600 700) (500 + (-1) * 1000) = 1 ∧
    window_end 4 (optsOf 50 51 3000000)
      (timesExample 2000000000 2000000100 2000000200) = .ok 1 ∧
    firstAtLeastInt (timesExample 2000000000 2000000100 2000000200)
      (2000000000 + 3000000 * 1000) = 3 ∧
    window_end 4 (optsOf 50 51 1)
      (timesExample 18446744073709551615 18446744073709551615 18446744073709551615) =
      .ok 1 ∧
    firstAtLeastInt
      (timesExample 18446744073709551615 18446744073709551615 18446744073709551615)
      (18446744073709551615 + 1 * 1000) = 3 := by
  decide

/-- C6, amended. Window selection: on a buffer that is not empty, with both
indices in `[0, C)` and `sample_head + 1 < C`, for every window length `W`
whose product `W * 1000` fits an `int` and whose sum
`timestamps[head] + W * 1000` lies in `[0, 2 ^ 64)`, the `end` chosen by
`doplot` (given fuel for `C` steps) is the first index in ring order from
`sample_head + 1`, strictly before `sample_tail`, whose timestamp is at least
`timestamps[head] + W * 1000`, or `sample_tail` when there is none; and that
index is what a call of `doplot` with the flag clear returns and sets
`sample_head` to. -/
theorem window_selection (fuel : Nat) (opts : plotarg) (g : Globals) (hv : g.Valid)
    (hne : g.sample_head ≠ g.sample_tail)
    (hin : g.sample_head + 1 < g.sample_len) (hfuel : g.sample_len ≤ fuel)
    (hW1 : -2147483648 ≤ opts.sample_msecs * 1000)
    (hW2 : opts.sample_msecs * 1000 < 2147483648)
    (hs1 : 0 ≤ ((g.sample_times.getD g.sample_head 0 : Nat) : Int)
      + opts.sample_msecs * 1000)
    (hs2 : ((g.sample_times.getD g.sample_head 0 : Nat) : Int)
      + opts.sample_msecs * 1000 < 18446744073709551616) :
    window_end fuel opts g =
      .ok (firstAtLeastInt g
        (((g.sample_times.getD g.sample_head 0 : Nat) : Int)
          + opts.sample_msecs * 1000)) ∧
    (g.sample_busy = false → ∀ g1 d r, doplot fuel opts g = .ok (g1, d, r) →
      r = firstAtLeastInt g
        (((g.sample_times.getD g.sample_head 0 : Nat) : Int)
          + opts.sample_msecs * 1000) ∧
      g1.sample_head = r) := by
  have hte := threshold_exact (g.sample_times.getD g.sample_head 0) opts.sample_msecs
    hW1 hW2 hs1 hs2
  rw [← hte, firstAtLeastInt_cast]
  refine ⟨window_end_spec fuel opts g hv hin hfuel, ?_⟩
  intro hb g1 d r hd
  have hw := window_end_spec fuel opts { g with sample_busy := true } hv hin hfuel
  unfold doplot at hd
  rw [hb] at hd
  simp only [Bool.false_eq_true, if_false, if_neg hne] at hd
  split at hd
  · cases hd
  · rw [hw] at hd
    simp only at hd
    split at hd
    · cases hd
    · cases hd
      exact ⟨rfl, rfl⟩

theorem window_selection_witness :
    windowExample.Valid ∧
    window_end 7 (optsOf 100 100 1) windowExample = .ok 5 ∧
    firstAtLeastInt windowExample (0 + 1 * 1000) = 5 :=
  ⟨by decide,
   (window_selection 7 (optsOf 100 100 1) windowExample (by decide) (by decide)
      (by decide) (by decide) (by decide) (by decide) (by decide) (by decide)).1,
   by decide⟩

/-- The truncated quotient of `x * (len - 1)` by `len` lies between `0` and
`x`, and is not `x` unless `x` is `0`. -/
theorem tdiv_last_bounds (x len : Int) (hlen : 0 < len) :
    (0 ≤ x → 0 ≤ Int.tdiv (x * (len - 1)) len ∧ Int.tdiv (x * (len - 1)) len ≤ x) ∧
    (0 < x → Int.tdiv (x * (len - 1)) len < x) ∧
    (x < 0 → x < Int.tdiv (x * (len - 1)) len ∧ Int.tdiv (x * (len - 1)) len ≤ 0) := by
  have hexp : x * (len - 1) = x * len - x := by ring
  refine ⟨?_, ?_, ?_⟩
  · intro hx
    have hp : 0 ≤ x * (len - 1) := Int.mul_nonneg hx (by omega)
    rw [Int.tdiv_eq_ediv hp (by omega)]
    exact ⟨Int.ediv_nonneg hp (by omega),
      Int.ediv_le_of_le_mul hlen (by rw [hexp]; omega)⟩
  · intro hx
    have hp : 0 ≤ x * (len - 1) := Int.mul_nonneg (by omega) (by omega)
    rw [Int.tdiv_eq_ediv hp (by omega)]
    exact Int.ediv_lt_of_lt_mul hlen (by rw [hexp]; omega)
  · intro hx
    have hp : 0 ≤ (-x) * (len - 1) := Int.mul_nonneg (by omega) (by omega)
    have hneg : x * (len - 1) = -((-x) * (len - 1)) := by ring
    have hexp2 : (-x) * (len - 1) = (-x) * len - (-x) := by ring
    rw [hneg, Int.neg_tdiv, Int.tdiv_eq_ediv hp (by omega)]
    have h1 : (-x) * (len - 1) / len < -x :=
      Int.ediv_lt_of_lt_mul hlen (by rw [hexp2]; omega)
    have h2 : 0 ≤ (-x) * (len - 1) / len := Int.ediv_nonneg hp (by omega)
    omega

/-- C7, as stated, fails: on a canvas of width 100 (usable width 60) the
two-sample range from index 0 to index 2 is drawn at `x = 40` and `x = 70`,
the second sample at offset 1 of 2, not at `x = 100`. -/
theorem last_sample_short_of_right_edge :
    plot_points 2 (optsOf 100 100 1) twoSamples 2 =
      .ok [.setColor 0 200 0 255, .line 40 60 40 60, .point 40 60,
        .line 40 60 70 59, .point 70 59] ∧
    xcoord (sub32 100 GUTTER) 1 2 = .ok 70 ∧
    ¬ (xcoord (sub32 100 GUTTER) 1 2 = .ok 100) := by
  decide

/-- The x of line 137 at the two ends of a range that does not wrap. -/
theorem xcoord_endpoints (g : Globals) (e : Nat) (width : Int)
    (hhe : g.sample_head + 2 ≤ e)
    (hw1 : -2147483608 ≤ width) (hw2 : width < 2147483648)
    (hp1 : -2147483648 ≤ (width - 40) * (rangeLen g e - 1))
    (hp2 : (width - 40) * (rangeLen g e - 1) < 2147483648) :
    rangeLen g e = (e : Int) - g.sample_head ∧
    xcoord (sub32 width GUTTER) 0 (rangeLen g e) = .ok 40 ∧
    xcoord (sub32 width GUTTER) (rangeLen g e - 1) (rangeLen g e) =
      .ok (40 + Int.tdiv ((width - 40) * (rangeLen g e - 1)) (rangeLen g e)) ∧
    (40 < width →
      40 + Int.tdiv ((width - 40) * (rangeLen g e - 1)) (rangeLen g e)
        < 40 + (width - 40)) := by
  have hlen : rangeLen g e = (e : Int) - g.sample_head := by
    unfold rangeLen
    rw [if_neg (by omega)]
  have hpos : 0 < rangeLen g e := by rw [hlen]; omega
  have hne : rangeLen g e ≠ 0 := by omega
  have hxr : sub32 width GUTTER = width - 40 := by
    unfold sub32 GUTTER
    exact wrap32_of_range _ (by omega) (by omega)
  obtain ⟨b1, b2, b3⟩ := tdiv_last_bounds (width - 40) (rangeLen g e) hpos
  refine ⟨hlen, ?_, ?_, ?_⟩
  · unfold xcoord
    rw [if_neg hne]
    simp [mul32, div32, add32, wrap32, GUTTER]
  · unfold xcoord
    rw [if_neg hne, hxr]
    unfold mul32
    rw [wrap32_of_range _ hp1 hp2]
    unfold div32 add32 GUTTER
    by_cases hx : 0 ≤ width - 40
    · obtain ⟨c1, c2⟩ := b1 hx
      have hq := wrap32_of_range
        (Int.tdiv ((width - 40) * (rangeLen g e - 1)) (rangeLen g e)) (by omega) (by omega)
      rw [hq, wrap32_of_range _ (by omega) (by omega)]
    · obtain ⟨c1, c2⟩ := b3 (by omega)
      have hq := wrap32_of_range
        (Int.tdiv ((width - 40) * (rangeLen g e - 1)) (rangeLen g e)) (by omega) (by omega)
      rw [hq, wrap32_of_range _ (by omega) (by omega)]
  · intro hw
    have := b2 (by omega)
    omega

/-- On a range that does not wrap, the loop of `plot_points` returns and
draws one point for each offset `n, n + 1, ...` up to `end`, at the x of line
137 for that offset. -/
theorem plot_loop_xs (opts : plotarg) (g : Globals) (e : Nat) (len xrange yrange : Int)
    (hs : g.samples.length = g.sample_len) (he : e < g.sample_len)
    (hmax : opts.max_y ≠ 0) (hlen : len ≠ 0)
    (fuel i : Nat) (n x0 prev : Int) (hi : i ≤ e) (hn0 : 0 ≤ n)
    (hn : n + ((e - i : Nat) : Int) < 2147483648) (hfuel : e - i ≤ fuel) :
    ∃ ds, plot_loop opts g e len xrange yrange fuel i n x0 prev = .ok ds ∧
      pointXs ds = (List.range (e - i)).map
        (fun k => add32 GUTTER (div32 (mul32 xrange (n + (k : Nat))) len)) := by
  induction fuel generalizing i n x0 prev with
  | zero =>
    have hie : i = e := by omega
    subst hie
    exact ⟨[], by simp [plot_loop], by simp [pointXs]⟩
  | succ fuel ih =>
    by_cases hie : i = e
    · subst hie
      exact ⟨[], by simp [plot_loop], by simp [pointXs]⟩
    · have hlt : i < e := by omega
      have hget : g.samples[i]? = some (g.samples.getD i 0) := by
        rw [List.getD_eq_getElem?_getD, List.getElem?_eq_getElem (by rw [hs]; omega)]
        rfl
      have hnext : (if i + 1 ≥ g.sample_len then 0 else i + 1) = i + 1 := by
        rw [if_neg (by omega)]
      have hn1 : add32 n 1 = n + 1 := by
        unfold add32
        exact wrap32_of_range _ (by omega) (by omega)
      obtain ⟨ds, hds, hxs⟩ := ih (i + 1) (n + 1)
        (add32 GUTTER (div32 (mul32 xrange n) len))
        (sub32 (sub32 opts.height GUTTER)
          (div32 (mul32 yrange (g.samples.getD i 0)) opts.max_y))
        (by omega) (by omega) (by omega) (by omega)
      refine ⟨.line x0 prev (add32 GUTTER (div32 (mul32 xrange n) len))
          (sub32 (sub32 opts.height GUTTER)
            (div32 (mul32 yrange (g.samples.getD i 0)) opts.max_y)) ::
        .point (add32 GUTTER (div32 (mul32 xrange n) len))
          (sub32 (sub32 opts.height GUTTER)
            (div32 (mul32 yrange (g.samples.getD i 0)) opts.max_y)) :: ds, ?_, ?_⟩
      · rw [plot_loop, if_neg hie]
        simp only [xcoord, if_neg hlen, hget, ycoord, if_neg hmax, hnext, hn1, hds]
      · have hcount : e - i = (e - (i + 1)) + 1 := by omega
        rw [hcount, List.range_succ_eq_map, List.map_cons, List.map_map]
        simp only [pointXs, hxs]
        congr 1
        · simp
        · apply List.map_congr_left
          intro k _
          simp only [Function.comp, Nat.succ_eq_add_one, Nat.cast_add, Nat.cast_one]
          congr 3
          ring

/-- C7, amended. Render X mapping endpoints: for a range that does not wrap
(`sample_head ≤ end`) of length `len = end - sample_head ≥ 2`, on a canvas
whose width and whose product `(width - 40) * (len - 1)` fit an `int`, the x
computed at offset 0 is the gutter 40, and the x computed at offset `len - 1`
is `40 + (width - 40) * (len - 1) / len` with the quotient truncated, which is
less than gutter plus usable width whenever the usable width is positive;
and `plot_points` draws `len` points, the first at the former x and the last
at the latter. -/
theorem render_x_endpoints (fuel : Nat) (opts : plotarg) (g : Globals) (e : Nat)
    (hs : g.samples.length = g.sample_len) (he : e < g.sample_len)
    (hC : (g.sample_len : Int) < 2147483648)
    (hhe : g.sample_head + 2 ≤ e) (hmax : opts.max_y ≠ 0)
    (hw1 : -2147483608 ≤ opts.width) (hw2 : opts.width < 2147483648)
    (hp1 : -2147483648 ≤ (opts.width - 40) * (rangeLen g e - 1))
    (hp2 : (opts.width - 40) * (rangeLen g e - 1) < 2147483648)
    (hfuel : e - g.sample_head ≤ fuel) :
    rangeLen g e = (e : Int) - g.sample_head ∧
    xcoord (sub32 opts.width GUTTER) 0 (rangeLen g e) = .ok 40 ∧
    xcoord (sub32 opts.width GUTTER) (rangeLen g e - 1) (rangeLen g e) =
      .ok (40 + Int.tdiv ((opts.width - 40) * (rangeLen g e - 1)) (rangeLen g e)) ∧
    (40 < opts.width →
      40 + Int.tdiv ((opts.width - 40) * (rangeLen g e - 1)) (rangeLen g e)
        < 40 + (opts.width - 40)) ∧
    ∃ ds, plot_points fuel opts g e = .ok ds ∧
      (pointXs ds).length = e - g.sample_head ∧
      (pointXs ds).head? = some 40 ∧
      (pointXs ds).getLast? =
        some (40 + Int.tdiv ((opts.width - 40) * (rangeLen g e - 1)) (rangeLen g e)) := by
  obtain ⟨h1, h2, h3, h4⟩ := xcoord_endpoints g e opts.width hhe hw1 hw2 hp1 hp2
  refine ⟨h1, h2, h3, h4, ?_⟩
  have hne : rangeLen g e ≠ 0 := by rw [h1]; omega
  obtain ⟨ds, hds, hxs⟩ := plot_loop_xs opts g e (rangeLen g e)
    (sub32 opts.width GUTTER) (sub32 opts.height GUTTER) hs he hmax hne fuel
    g.sample_head 0 GUTTER (sub32 opts.height GUTTER) (by omega) (by omega) (by omega)
    hfuel
  obtain ⟨m, hm⟩ : ∃ m, e - g.sample_head = m + 1 := ⟨e - g.sample_head - 1, by omega⟩
  have hm1 : ((m : Nat) : Int) = rangeLen g e - 1 := by rw [h1]; omega
  simp only [xcoord, if_neg hne, Except.ok.injEq] at h2 h3
  refine ⟨.setColor 0 200 0 255 :: ds, ?_, ?_, ?_, ?_⟩
  · unfold plot_points
    simp only [hds]
  · simp [pointXs, hxs]
  · simp only [pointXs, hxs, hm, List.range_succ_eq_map, List.map_cons, List.head?_cons]
    simp only [Nat.cast_zero, add_zero, h2]
  · simp only [pointXs, hxs, hm, List.range_succ, List.map_append, List.map_cons,
      List.map_nil]
    rw [List.getLast?_append]
    simp only [List.getLast?_singleton, zero_add, hm1, h3]
    rfl

theorem render_x_endpoints_witness :
    ∃ ds, plot_points 2 (optsOf 100 100 1) twoSamples 2 = .ok ds ∧
      (pointXs ds).length = 2 ∧
      (pointXs ds).head? = some 40 ∧
      (pointXs ds).getLast? = some 70 :=
  (render_x_endpoints 2 (optsOf 100 100 1) twoSamples 2 rfl (by decide) (by decide)
    (by decide) (by decide) (by decide) (by decide) (by decide) (by decide)
    (by decide)).2.2.2.2

/-- The horizontal dash loop with dash length 5 ends within `x2 - x1` passes
when `x2 + 8` fits an `int`. -/
theorem dashed_h_total (y1 x2 y2 : Int) (hx2 : x2 < 2147483640) (fuel : Nat) (x1 : Int)
    (hx1 : -2147483648 ≤ x1) (hfuel : (x2 - x1).toNat ≤ fuel) :
    ∃ ds, dashed_h y1 x2 y2 5 fuel x1 = .ok ds := by
  induction fuel generalizing x1 with
  | zero =>
    have : ¬ x1 < x2 := by omega
    exact ⟨[], by simp [dashed_h, this]⟩
  | succ fuel ih =>
    by_cases h : x1 < x2
    · have hstep : add32 x1 (add32 5 3) = x1 + 8 := by
        unfold add32
        rw [wrap32_of_range (5 + 3) (by decide) (by decide)]
        exact wrap32_of_range _ (by omega) (by omega)
      obtain ⟨ds, hds⟩ := ih (x1 + 8) (by omega) (by omega)
      rw [dashed_h, if_pos h, hstep, hds]
      exact ⟨_, rfl⟩
    · exact ⟨[], by simp [dashed_h, h]⟩

theorem grid_rows_total (fuel : Nat) (opts : plotarg) (ygap : Int)
    (hw1 : -2147483638 ≤ opts.width) (hw2 : opts.width < 2147483648)
    (hfuel : (opts.width - 50).toNat ≤ fuel) (k : Nat) (i : Int) :
    ∃ rows, grid_rows fuel opts ygap k i = .ok rows := by
  induction k generalizing i with
  | zero => exact ⟨[], rfl⟩
  | succ k ih =>
    have hx2 : sub32 opts.width 10 = opts.width - 10 := by
      unfold sub32
      exact wrap32_of_range _ (by omega) (by omega)
    obtain ⟨rest, hrest⟩ := ih (add32 i 1)
    have hrow : ∃ row, draw_dashed fuel GUTTER
        (sub32 opts.height (add32 GUTTER (mul32 i ygap))) (sub32 opts.width 10)
        (sub32 opts.height (add32 GUTTER (mul32 i ygap))) 5 = .ok row := by
      unfold draw_dashed
      split
      · rw [hx2]
        exact dashed_h_total _ _ _ (by omega) fuel GUTTER (by unfold GUTTER; omega)
          (by unfold GUTTER; omega)
      · cases fuel <;> exact ⟨[], by simp [dashed_v]⟩
    obtain ⟨row, hrow⟩ := hrow
    rw [grid_rows]
    simp only [hrow, hrest]
    exact ⟨_, rfl⟩

/-- On a canvas whose width fits an `int`, `draw_grid` returns with fuel for
`width - 50` passes of the dash loop. -/
theorem draw_grid_total (fuel : Nat) (opts : plotarg)
    (hw1 : -2147483638 ≤ opts.width) (hw2 : opts.width < 2147483648)
    (hfuel : (opts.width - 50).toNat ≤ fuel) :
    ∃ grid, draw_grid fuel opts = .ok grid := by
  obtain ⟨rows, hrows⟩ := grid_rows_total fuel opts
    (div32 (sub32 opts.height GUTTER) 11) hw1 hw2 hfuel 11 0
  unfold draw_grid
  simp only [hrows]
  exact ⟨_, rfl⟩

/-- C8, as stated, fails: with three samples 2000 microseconds apart and a
window of one millisecond, the first call of `doplot` draws the sample at
index 0 and moves `sample_head` to 1; the second call, with no write in
between, draws the sample at index 1, other draw calls than the first, and
moves `sample_head` on to 2. -/
theorem second_render_differs :
    doplot 4 (optsOf 50 51 1) (threeSamples 0) =
      .ok (threeSamples 1,
        gridExample ++
          [.setColor 0 200 0 255, .line 40 11 40 11, .point 40 11, .present], 1) ∧
    doplot 4 (optsOf 50 51 1) (threeSamples 1) =
      .ok (threeSamples 2,
        gridExample ++
          [.setColor 0 200 0 255, .line 40 11 40 10, .point 40 10, .present], 2) ∧
    (threeSamples 2).sample_head ≠ (threeSamples 1).sample_head := by
  decide

theorem globals_busy_eta (g : Globals) (hb : g.sample_busy = false) :
    { g with sample_busy := false } = g := by
  cases g
  simp_all

/-- A call of `doplot` on an empty buffer with the flag clear makes the calls
of `draw_grid`, returns `sample_head` and changes nothing. -/
theorem doplot_empty (fuel : Nat) (opts : plotarg) (g : Globals) (grid : List Draw)
    (hb : g.sample_busy = false) (he : g.sample_head = g.sample_tail)
    (hg : draw_grid fuel opts = .ok grid) :
    doplot fuel opts g = .ok (g, grid, g.sample_head) := by
  unfold doplot
  rw [hb, hg]
  simp only [Bool.false_eq_true, if_false, if_pos he]
  rw [globals_busy_eta g hb]

/-- C8, amended. Render idempotence: with the busy flag clear (on a canvas
whose width fits an `int`, with fuel for the dash loops), a call of `doplot`
on an empty buffer makes exactly the draw calls of the grid and changes none
of the globals, so two calls with no push in between produce the same draw
calls and leave head and tail alone; on any buffer a call leaves
`sample_tail` alone, and when it leaves the buffer empty (its window reached
`sample_tail`) a second call with no push in between makes the draw calls of
the grid only and leaves head and tail as the first call left them. -/
theorem render_twice (fuel : Nat) (opts : plotarg) (g : Globals)
    (hb : g.sample_busy = false)
    (hw1 : -2147483638 ≤ opts.width) (hw2 : opts.width < 2147483648)
    (hfuel : (opts.width - 50).toNat ≤ fuel) :
    ∃ grid, draw_grid fuel opts = .ok grid ∧
      (g.sample_head = g.sample_tail →
        doplot fuel opts g = .ok (g, grid, g.sample_head)) ∧
      (∀ g1 d1 r1, doplot fuel opts g = .ok (g1, d1, r1) →
        g1.sample_tail = g.sample_tail ∧
        (g1.sample_head = g1.sample_tail →
          doplot fuel opts g1 = .ok (g1, grid, g1.sample_head))) := by
  obtain ⟨grid, hg⟩ := draw_grid_total fuel opts hw1 hw2 hfuel
  refine ⟨grid, hg, fun he => doplot_empty fuel opts g grid hb he hg, ?_⟩
  intro g1 d1 r1 h1
  have key : g1.sample_tail = g.sample_tail ∧ g1.sample_busy = false := by
    unfold doplot at h1
    rw [hb, hg] at h1
    simp only [Bool.false_eq_true, if_false] at h1
    split at h1
    · cases h1
      exact ⟨rfl, rfl⟩
    · split at h1
      · cases h1
      · split at h1
        · cases h1
        · cases h1
          exact ⟨rfl, rfl⟩
  exact ⟨key.1, fun he => doplot_empty fuel opts g1 grid key.2 he hg⟩

theorem render_twice_witness :
    ∃ grid, draw_grid 4 (optsOf 50 51 1) = .ok grid ∧
      ((threeSamples 3).sample_head = (threeSamples 3).sample_tail →
        doplot 4 (optsOf 50 51 1) (threeSamples 3) =
          .ok (threeSamples 3, grid, (threeSamples 3).sample_head)) ∧
      (∀ g1 d1 r1, doplot 4 (optsOf 50 51 1) (threeSamples 3) = .ok (g1, d1, r1) →
        g1.sample_tail = (threeSamples 3).sample_tail ∧
        (g1.sample_head = g1.sample_tail →
          doplot 4 (optsOf 50 51 1) g1 = .ok (g1, grid, g1.sample_head))) :=
  render_twice 4 (optsOf 50 51 1) (threeSamples 3) rfl (by decide) (by decide)
    (by decide)

/-! ## Theorems: arrivals at the write step -/

theorem live_busy_irrelevant (g : Globals) (b : Bool) :
    live { g with sample_busy := b } = live g := rfl

theorem attempts_snoc (g : Globals) (xs : List (Int × Nat × Bool)) (x : Int × Nat × Bool) :
    attempts g (xs ++ [x]) = attempt (attempts g xs) x := by
  simp [attempts, List.foldl_append]

theorem applied_snoc (xs : List (Int × Nat × Bool)) (x : Int × Nat × Bool) :
    applied (xs ++ [x]) =
      applied xs ++ (if x.2.2 then [] else [(x.1, x.2.1)]) := by
  unfold applied
  rw [List.filterMap_append]
  cases h : x.2.2 <;> simp [h]

/-- A sequence of arrivals at the write step leaves the buffer that the
writes of the applied pairs alone leave, up to the value of `sample_busy`. -/
theorem attempts_eq_pushes (g : Globals) (hb : g.sample_busy = false)
    (xs : List (Int × Nat × Bool)) :
    ∃ b, attempts g xs = { pushes g (applied xs) with sample_busy := b } := by
  induction xs using List.reverseRecOn with
  | nil => exact ⟨false, by cases g; simp_all [attempts, applied, pushes]⟩
  | append_singleton xs x ih =>
    obtain ⟨b, hxs⟩ := ih
    have hpb : (pushes g (applied xs)).sample_busy = false := by
      rw [pushes_busy_eq, hb]
    rw [attempts_snoc, applied_snoc, hxs]
    cases hx : x.2.2
    · refine ⟨false, ?_⟩
      simp only [attempt, hx, Bool.false_eq_true, if_false, pushes_append]
      have e1 : ({ pushes g (applied xs) with sample_busy := false } : Globals) =
          pushes g (applied xs) := globals_busy_eta _ hpb
      rw [e1]
      have e2 : pushes (pushes g (applied xs)) [(x.1, x.2.1)] =
          push (pushes g (applied xs)) x.1 x.2.1 := by simp [pushes]
      rw [e2]
      exact (globals_busy_eta _ (by rw [push_busy_eq, hpb])).symm
    · refine ⟨true, ?_⟩
      simp [attempt, hx, push, pushes]

theorem small_ring_stays_empty (C : Nat) (hC : C ≤ 1) (mem : List Int) (tmem : List Nat)
    (ps : List (Int × Nat)) :
    (pushes (startup C mem tmem) ps).sample_len = C ∧
    (pushes (startup C mem tmem) ps).sample_head = 0 ∧
    (pushes (startup C mem tmem) ps).sample_tail = 0 ∧
    (pushes (startup C mem tmem) ps).sample_busy = false := by
  induction ps using List.reverseRecOn with
  | nil => exact ⟨rfl, rfl, rfl, rfl⟩
  | append_singleton ps p ih =>
    obtain ⟨h1, h2, h3, h4⟩ := ih
    rw [pushes_snoc, push_of_not_busy _ _ _ h4]
    simp only [h1, h2, h3]
    have : 0 + 1 ≥ C := by omega
    simp [this]

theorem applied_times_sublist (xs : List (Int × Nat × Bool)) :
    List.Sublist ((applied xs).map Prod.snd) (xs.map (fun x => x.2.1)) := by
  unfold applied
  induction xs with
  | nil => simp
  | cons x xs ih =>
    simp only [List.filterMap_cons, List.map_cons]
    cases hx : x.2.2
    · simp only [Bool.false_eq_true, if_false, List.map_cons]
      exact ih.cons₂ _
    · simp only [if_true]
      exact ih.cons _

/-- C14. Timestamp order invariant: from the empty buffer, after any sequence
of arrivals at the write step, each written with the flag clear or dropped
with the flag set, whose timestamps never decrease from one arrival to the
next, the timestamps of the live entries read from head to tail in ring order
never decrease, whatever the length of the sequence. -/
theorem timestamp_order (C : Nat) (mem : List Int) (tmem : List Nat)
    (hm : mem.length = C) (ht : tmem.length = C)
    (xs : List (Int × Nat × Bool))
    (hxs : List.Chain' (fun a b => a ≤ b) (xs.map (fun x => x.2.1))) :
    List.Chain' (fun a b => a ≤ b)
      ((live (attempts (startup C mem tmem) xs)).map Prod.snd) ∧
    List.Pairwise (fun a b => a ≤ b)
      ((live (attempts (startup C mem tmem) xs)).map Prod.snd) := by
  have hpw : List.Pairwise (fun a b => a ≤ b) (xs.map (fun x => x.2.1)) :=
    List.chain'_iff_pairwise.mp hxs
  obtain ⟨b, hb⟩ := attempts_eq_pushes (startup C mem tmem) rfl xs
  have hsub := applied_times_sublist xs
  have hlive : List.Sublist ((live (attempts (startup C mem tmem) xs)).map Prod.snd)
      ((applied xs).map Prod.snd) := by
    rw [hb, live_busy_irrelevant]
    by_cases hC : 2 ≤ C
    · rw [(live_pushes C hC mem tmem hm ht (applied xs)).2]
      exact (List.drop_sublist _ _).map _
    · obtain ⟨h1, h2, h3, -⟩ :=
        small_ring_stays_empty C (by omega) mem tmem (applied xs)
      have : live (pushes (startup C mem tmem) (applied xs)) = [] := by
        unfold live liveCount
        rw [h1, h2, h3]
        simp
      rw [this]
      exact List.nil_sublist _
  have hres := hpw.sublist (hlive.trans hsub)
  exact ⟨List.chain'_iff_pairwise.mpr hres, hres⟩

theorem timestamp_order_witness :
    live (attempts (startup 3 [0, 0, 0] [0, 0, 0])
      [(1, 10, false), (2, 20, true), (3, 30, false), (4, 40, false), (5, 50, false)]) =
      [(4, 40), (5, 50)] ∧
    List.Pairwise (fun a b => a ≤ b)
      ((live (attempts (startup 3 [0, 0, 0] [0, 0, 0])
        [(1, 10, false), (2, 20, true), (3, 30, false), (4, 40, false),
          (5, 50, false)])).map Prod.snd) :=
  ⟨by decide,
   (timestamp_order 3 [0, 0, 0] [0, 0, 0] rfl rfl
      [(1, 10, false), (2, 20, true), (3, 30, false), (4, 40, false), (5, 50, false)]
      (by simp)).2⟩

/-! ## Theorems: what `doplot` leaves behind -/

/-- The loop of lines 178-185 does not look at `sample_busy`. -/
theorem find_end_busy (g : Globals) (b : Bool) (te fuel e : Nat) :
    find_end { g with sample_busy := b } te fuel e = find_end g te fuel e := by
  induction fuel generalizing e with
  | zero => rfl
  | succ fuel ih =>
    rw [find_end, find_end]
    simp only [ih]

theorem window_end_busy (fuel : Nat) (opts : plotarg) (g : Globals) (b : Bool) :
    window_end fuel opts { g with sample_busy := b } = window_end fuel opts g := by
  unfold window_end
  simp only [find_end_busy]

/-- An index returned by the loop of lines 178-185 is inside the arrays. -/
theorem find_end_inb (g : Globals) (te : Nat)
    (hlen : g.sample_times.length = g.sample_len) (htail : g.sample_tail < g.sample_len)
    (fuel e0 e : Nat) (h : find_end g te fuel e0 = .ok e) : e < g.sample_len := by
  induction fuel generalizing e0 with
  | zero =>
    rw [find_end] at h
    split at h
    · cases h; omega
    · cases h
  | succ fuel ih =>
    rw [find_end] at h
    split at h
    · cases h; omega
    · split at h
      · cases h
      · rename_i t ht
        split at h
        · cases h
          have := List.getElem?_eq_some_iff.mp ht
          obtain ⟨hlt, -⟩ := this
          omega
        · exact ih _ h

/-- An index returned by the loop of lines 178-185, started inside the
arrays, is no further from `sample_tail` in ring order than the start. -/
theorem find_end_dist (g : Globals) (te : Nat) (htail : g.sample_tail < g.sample_len)
    (fuel e0 e : Nat) (he0 : e0 < g.sample_len) (h : find_end g te fuel e0 = .ok e) :
    ringDist g.sample_len e g.sample_tail ≤ ringDist g.sample_len e0 g.sample_tail := by
  induction fuel generalizing e0 with
  | zero =>
    rw [find_end] at h
    split at h
    · cases h; exact Nat.le_refl _
    · cases h
  | succ fuel ih =>
    rw [find_end] at h
    split at h
    · cases h; exact Nat.le_refl _
    · rename_i hne
      split at h
      · cases h
      · split at h
        · cases h; exact Nat.le_refl _
        · have hstep := ih _ (by split <;> omega) h
          refine Nat.le_trans hstep ?_
          unfold ringDist
          split <;> split <;> split <;> omega

/-- The loop of `plot_points` does not look at `sample_busy`. -/
theorem plot_loop_busy (opts : plotarg) (g : Globals) (b : Bool) (e : Nat)
    (len xrange yrange : Int) (fuel i : Nat) (n x0 prev : Int) :
    plot_loop opts { g with sample_busy := b } e len xrange yrange fuel i n x0 prev =
      plot_loop opts g e len xrange yrange fuel i n x0 prev := by
  induction fuel generalizing i n x0 prev with
  | zero => rfl
  | succ fuel ih =>
    rw [plot_loop, plot_loop]
    simp only [ih]

theorem plot_points_busy (fuel : Nat) (opts : plotarg) (g : Globals) (b : Bool) (e : Nat) :
    plot_points fuel opts { g with sample_busy := b } e = plot_points fuel opts g e := by
  unfold plot_points
  simp only [plot_loop_busy]
  rfl

/-- With both indices inside the arrays, a divisor `len` and a `max_y` other
than zero, the loop of `plot_points` returns after one pass for each step of
the ring from `i` to `end`, each pass drawing one point. -/
theorem plot_loop_ring (opts : plotarg) (g : Globals) (e : Nat) (len xrange yrange : Int)
    (hs : g.samples.length = g.sample_len) (he : e < g.sample_len)
    (hmax : opts.max_y ≠ 0) (hlen : len ≠ 0)
    (d fuel i : Nat) (n x0 prev : Int) (hi : i < g.sample_len)
    (hd : ringDist g.sample_len i e = d) (hfuel : d ≤ fuel) :
    ∃ ds, plot_loop opts g e len xrange yrange fuel i n x0 prev = .ok ds ∧
      (pointXs ds).length = d := by
  induction d generalizing fuel i n x0 prev with
  | zero =>
    have hie : i = e := by
      unfold ringDist at hd
      split at hd <;> omega
    subst hie
    cases fuel <;> exact ⟨[], by simp [plot_loop], by simp [pointXs]⟩
  | succ d ih =>
    have hne : i ≠ e := by
      intro h
      rw [h] at hd
      simp [ringDist] at hd
    obtain ⟨f, rfl⟩ : ∃ f, fuel = f + 1 := ⟨fuel - 1, by omega⟩
    have hget : g.samples[i]? = some (g.samples.getD i 0) := by
      rw [List.getD_eq_getElem?_getD, List.getElem?_eq_getElem (by rw [hs]; omega)]
      rfl
    obtain ⟨ds, hds, hcount⟩ := ih f (if i + 1 ≥ g.sample_len then 0 else i + 1)
      (add32 n 1) (add32 GUTTER (div32 (mul32 xrange n) len))
      (sub32 (sub32 opts.height GUTTER)
        (div32 (mul32 yrange (g.samples.getD i 0)) opts.max_y))
      (by split <;> omega)
      (by
        unfold ringDist at hd ⊢
        split at hd <;> split <;> split <;> omega)
      (by omega)
    refine ⟨.line x0 prev (add32 GUTTER (div32 (mul32 xrange n) len))
        (sub32 (sub32 opts.height GUTTER)
          (div32 (mul32 yrange (g.samples.getD i 0)) opts.max_y)) ::
      .point (add32 GUTTER (div32 (mul32 xrange n) len))
        (sub32 (sub32 opts.height GUTTER)
          (div32 (mul32 yrange (g.samples.getD i 0)) opts.max_y)) :: ds, ?_, ?_⟩
    · rw [plot_loop, if_neg hne]
      simp only [xcoord, if_neg hlen, hget, ycoord, if_neg hmax, hds]
    · simp [pointXs, hcount]

/-- On a buffer that is not empty, with `sample_head + 1` inside the arrays,
the flag clear and `max_y` not zero, `doplot` returns: it makes the calls of
the grid, of the points up to the chosen `end` and of the present, sets
`sample_head` to `end` and returns it. -/
theorem doplot_nonempty (fuel : Nat) (opts : plotarg) (g : Globals) (hv : g.Valid)
    (hb : g.sample_busy = false) (hne : g.sample_head ≠ g.sample_tail)
    (hin : g.sample_head + 1 < g.sample_len) (hmax : opts.max_y ≠ 0)
    (hw1 : -2147483638 ≤ opts.width) (hw2 : opts.width < 2147483648)
    (hfuel1 : g.sample_len ≤ fuel) (hfuel2 : (opts.width - 50).toNat ≤ fuel) :
    ∃ grid pts, draw_grid fuel opts = .ok grid ∧
      plot_points fuel opts g (selectedEnd opts g) = .ok pts ∧
      doplot fuel opts g =
        .ok ({ g with sample_head := selectedEnd opts g },
          grid ++ pts ++ [.present], selectedEnd opts g) := by
  obtain ⟨grid, hgrid⟩ := draw_grid_total fuel opts hw1 hw2 hfuel2
  have hwe := window_end_spec fuel opts g hv hin hfuel1
  change window_end fuel opts g = .ok (selectedEnd opts g) at hwe
  generalize selectedEnd opts g = e at hwe ⊢
  obtain ⟨hs, ht, hh, htl⟩ := hv
  have hfe : find_end g (threshold (g.sample_times.getD g.sample_head 0)
      opts.sample_msecs) fuel (g.sample_head + 1) = .ok e := by
    unfold window_end at hwe
    have hget : g.sample_times[g.sample_head]? =
        some (g.sample_times.getD g.sample_head 0) := by
      rw [List.getD_eq_getElem?_getD, List.getElem?_eq_getElem (by rw [ht]; exact hh)]
      rfl
    rw [hget] at hwe
    exact hwe
  have he : e < g.sample_len := find_end_inb g _ ht htl fuel _ e hfe
  have hdist := find_end_dist g _ htl fuel _ e hin hfe
  have heh : e ≠ g.sample_head := by
    intro h
    rw [h] at hdist
    unfold ringDist at hdist
    split at hdist <;> split at hdist <;> omega
  have hlen : rangeLen g e ≠ 0 := by
    unfold rangeLen
    split <;> omega
  obtain ⟨ds, hds, -⟩ := plot_loop_ring opts g e (rangeLen g e)
    (sub32 opts.width GUTTER) (sub32 opts.height GUTTER) hs he hmax hlen
    (ringDist g.sample_len g.sample_head e) fuel g.sample_head 0 GUTTER
    (sub32 opts.height GUTTER) hh rfl (by
      unfold ringDist
      split <;> omega)
  have hpp : plot_points fuel opts g e = .ok (.setColor 0 200 0 255 :: ds) := by
    unfold plot_points
    simp only [hds]
  refine ⟨grid, _, hgrid, hpp, ?_⟩
  unfold doplot
  rw [hb, hgrid]
  simp only [Bool.false_eq_true, if_false, if_neg hne, window_end_busy, hwe,
    plot_points_busy, hpp]

theorem push_valid (g : Globals) (c : Int) (ts : Nat) (hv : g.Valid) :
    (push g c ts).Valid := by
  obtain ⟨hs, ht, hh, htl⟩ := hv
  cases hb : g.sample_busy
  · rw [push_of_not_busy g c ts hb]
    refine ⟨?_, ?_, ?_, ?_⟩
    · simpa using hs
    · simpa using ht
    · dsimp only
      split_ifs <;> omega
    · dsimp only
      split_ifs <;> omega
  · have : push g c ts = g := by simp [push, hb]
    rw [this]
    exact ⟨hs, ht, hh, htl⟩

/-- What a call of `doplot` that returns leaves behind: when the flag is
clear and the buffer not empty, `sample_head` is the chosen `end`, which is
the value returned and an index inside the arrays, the flag is clear, and the
other globals are as before. -/
theorem doplot_frame (fuel : Nat) (opts : plotarg) (g g1 : Globals) (d : List Draw)
    (r : Nat) (hv : g.Valid) (hb : g.sample_busy = false)
    (hne : g.sample_head ≠ g.sample_tail)
    (h : doplot fuel opts g = .ok (g1, d, r)) :
    window_end fuel opts g = .ok r ∧ r < g.sample_len ∧
    g1 = { g with sample_head := r } := by
  obtain ⟨hs, ht, hh, htl⟩ := hv
  unfold doplot at h
  rw [hb] at h
  simp only [Bool.false_eq_true, if_false, if_neg hne, window_end_busy,
    plot_points_busy] at h
  split at h
  · cases h
  · split at h
    · cases h
    · rename_i e hwe
      split at h
      · cases h
      · cases h
        refine ⟨hwe, ?_, ?_⟩
        · unfold window_end at hwe
          split at hwe
          · cases hwe
          · exact find_end_inb g _ ht htl fuel _ _ hwe
        · rw [hb]

/-- C11. Index invariant: on a buffer whose indices lie in `[0, C)`, the
write step leaves both indices in `[0, C)`; every call of `doplot` that
returns leaves both indices in `[0, C)`; and `doplot` does return, given the
fuel, when the flag is set, when the buffer is empty, or when
`sample_head + 1` is inside the arrays. -/
theorem index_invariant (g : Globals) (hv : g.Valid) :
    (∀ c ts, (push g c ts).Valid) ∧
    (∀ fuel opts g1 d r, doplot fuel opts g = .ok (g1, d, r) →
      g1.Valid ∧ g1.sample_head < g1.sample_len ∧ g1.sample_tail < g1.sample_len) ∧
    (∀ fuel opts,
      (g.sample_busy = true ∨ g.sample_head = g.sample_tail ∨
        g.sample_head + 1 < g.sample_len) →
      opts.max_y ≠ 0 → -2147483638 ≤ opts.width → opts.width < 2147483648 →
      g.sample_len ≤ fuel → (opts.width - 50).toNat ≤ fuel →
      ∃ g1 d r, doplot fuel opts g = .ok (g1, d, r) ∧ g1.Valid) := by
  refine ⟨fun c ts => push_valid g c ts hv, ?_, ?_⟩
  · intro fuel opts g1 d r h
    have key : g1.Valid := by
      cases hb : g.sample_busy
      · by_cases he : g.sample_head = g.sample_tail
        · cases hgrid : draw_grid fuel opts with
          | error f =>
            unfold doplot at h
            rw [hb, hgrid] at h
            simp at h
          | ok grid =>
            rw [doplot_empty fuel opts g grid hb he hgrid] at h
            cases h
            exact hv
        · obtain ⟨-, hr, hg1⟩ := doplot_frame fuel opts g g1 d r hv hb he h
          rw [hg1]
          exact ⟨hv.1, hv.2.1, hr, hv.2.2.2⟩
      · unfold doplot at h
        rw [hb] at h
        simp only [if_true] at h
        cases h
        exact hv
    exact ⟨key, key.2.2.1, key.2.2.2⟩
  · intro fuel opts hcase hmax hw1 hw2 hf1 hf2
    cases hb : g.sample_busy
    · by_cases he : g.sample_head = g.sample_tail
      · obtain ⟨grid, hgrid⟩ := draw_grid_total fuel opts hw1 hw2 hf2
        exact ⟨g, grid, g.sample_head, doplot_empty fuel opts g grid hb he hgrid, hv⟩
      · have hin : g.sample_head + 1 < g.sample_len := by
          rcases hcase with h1 | h1 | h1
          · rw [hb] at h1; cases h1
          · exact absurd h1 he
          · exact h1
        obtain ⟨grid, pts, -, -, hd⟩ :=
          doplot_nonempty fuel opts g hv hb he hin hmax hw1 hw2 hf1 hf2
        obtain ⟨-, hr, hg1⟩ := doplot_frame fuel opts g _ _ _ hv hb he hd
        exact ⟨_, _, _, hd, ⟨hv.1, hv.2.1, hr, hv.2.2.2⟩⟩
    · refine ⟨g, [], g.sample_head, ?_, hv⟩
      unfold doplot
      rw [hb]
      simp

theorem index_invariant_witness :
    (threeSamples 0).Valid ∧
    (push (threeSamples 0) 5 6000).Valid ∧
    (∃ g1 d r, doplot 4 (optsOf 50 51 1) (threeSamples 0) = .ok (g1, d, r) ∧
      g1.Valid) :=
  ⟨by decide,
   (index_invariant (threeSamples 0) (by decide)).1 5 6000,
   (index_invariant (threeSamples 0) (by decide)).2.2 4 (optsOf 50 51 1)
     (Or.inr (Or.inr (by decide))) (by decide) (by decide) (by decide) (by decide)
     (by decide)⟩

/-- C13. Render consumes the window: on a buffer that is not empty, with the
flag clear, every call of `doplot` that returns has set `sample_head` to the
chosen `end` and returned that `end`, with `sample_tail`, both arrays and the
capacity as before and the flag clear again, and the call does return (given
the fuel, a `max_y` other than zero and a width that fits an `int`) when
`sample_head + 1` is inside the arrays, the `end` then being the one of the
window selection; with the flag set on entry, or on an empty buffer, `doplot`
returns `sample_head` and changes none of the globals. -/
theorem render_consumes_window (fuel : Nat) (opts : plotarg) (g : Globals)
    (hv : g.Valid) :
    (g.sample_busy = true → doplot fuel opts g = .ok (g, [], g.sample_head)) ∧
    (g.sample_busy = false → g.sample_head = g.sample_tail →
      -2147483638 ≤ opts.width → opts.width < 2147483648 →
      (opts.width - 50).toNat ≤ fuel →
      ∃ grid, doplot fuel opts g = .ok (g, grid, g.sample_head)) ∧
    (g.sample_busy = false → g.sample_head ≠ g.sample_tail →
      ∀ g1 d r, doplot fuel opts g = .ok (g1, d, r) →
        window_end fuel opts g = .ok r ∧ g1.sample_head = r ∧
        g1.sample_tail = g.sample_tail ∧ g1.samples = g.samples ∧
        g1.sample_times = g.sample_times ∧ g1.sample_len = g.sample_len ∧
        g1.sample_busy = false) ∧
    (g.sample_busy = false → g.sample_head ≠ g.sample_tail →
      g.sample_head + 1 < g.sample_len → opts.max_y ≠ 0 →
      -2147483638 ≤ opts.width → opts.width < 2147483648 →
      g.sample_len ≤ fuel → (opts.width - 50).toNat ≤ fuel →
      ∃ d, doplot fuel opts g =
        .ok ({ g with sample_head := selectedEnd opts g }, d, selectedEnd opts g)) := by
  refine ⟨?_, ?_, ?_, ?_⟩
  · intro hb
    unfold doplot
    rw [hb]
    simp
  · intro hb he hw1 hw2 hf
    obtain ⟨grid, hgrid⟩ := draw_grid_total fuel opts hw1 hw2 hf
    exact ⟨grid, doplot_empty fuel opts g grid hb he hgrid⟩
  · intro hb hne g1 d r h
    obtain ⟨hwe, -, hg1⟩ := doplot_frame fuel opts g g1 d r hv hb hne h
    rw [hg1]
    exact ⟨hwe, rfl, rfl, rfl, rfl, rfl, hb⟩
  · intro hb hne hin hmax hw1 hw2 hf1 hf2
    obtain ⟨grid, pts, -, -, hd⟩ :=
      doplot_nonempty fuel opts g hv hb hne hin hmax hw1 hw2 hf1 hf2
    exact ⟨_, hd⟩

theorem render_consumes_window_witness :
    (threeSamples 0).Valid ∧
    selectedEnd (optsOf 50 51 1) (threeSamples 0) = 1 ∧
    ∃ d, doplot 4 (optsOf 50 51 1) (threeSamples 0) = .ok (threeSamples 1, d, 1) :=
  ⟨by decide, by decide,
   (render_consumes_window 4 (optsOf 50 51 1) (threeSamples 0) (by decide)).2.2.2
     rfl (by decide) (by decide) (by decide) (by decide) (by decide) (by decide)
     (by decide)⟩

/-! ## Theorems: the search for the sentinel -/

theorem calibrate_iter_four (g : Globals) (r2 r3 : Option Byte) (b4 : Byte)
    (rest : List (Option Byte)) (nr nt : Nat) (log : List (Int × Nat)) :
    calibrate_iter ⟨g, some 0xFF :: r2 :: r3 :: some b4 :: rest, nr, nt, log⟩ =
      .next (if b4 = 0xFF then .locked else .searching) ⟨g, rest, nr + 4, nt, log⟩ := by
  by_cases h : b4 = 0xFF <;> simp [calibrate_iter, readByte, h]

/-- C16. Searching transition: the calibrate loop discards a byte other than
`0xFF` in one pass; on a `0xFF` it consumes the results of the next two reads
whatever they are and then a fourth byte, all in one pass that ends in the
packet loop in front of the bytes after the fourth when the fourth is `0xFF`,
and in the search in front of those same bytes when it is not; so the search
is left if and only if the fourth byte is `0xFF`, and when it is not the
search goes on as the search resumed from the fourth byte goes on after one
pass. -/
theorem searching_transition (clock : Nat → Timeval) (g : Globals)
    (rest : List (Option Byte)) (nr nt : Nat) (log : List (Int × Nat)) :
    (∀ b : Byte, b ≠ 0xFF →
      calibrate_iter ⟨g, some b :: rest, nr, nt, log⟩ =
        .next .searching ⟨g, rest, nr + 1, nt, log⟩) ∧
    (∀ (r2 r3 : Option Byte) (b4 : Byte),
      calibrate_iter ⟨g, some 0xFF :: r2 :: r3 :: some b4 :: rest, nr, nt, log⟩ =
        .next (if b4 = 0xFF then .locked else .searching)
          ⟨g, rest, nr + 4, nt, log⟩) ∧
    (∀ (r2 r3 : Option Byte) (b4 : Byte),
      (∃ st, calibrate_iter
          ⟨g, some 0xFF :: r2 :: r3 :: some b4 :: rest, nr, nt, log⟩ =
        .next .locked st) ↔ b4 = 0xFF) ∧
    (∀ (r2 r3 : Option Byte) (b4 : Byte) (fuel : Nat), b4 ≠ 0xFF →
      run clock (fuel + 1) .searching
          ⟨g, some 0xFF :: r2 :: r3 :: some b4 :: rest, nr, nt, log⟩ =
        run clock fuel .searching ⟨g, rest, nr + 4, nt, log⟩ ∧
      run clock (fuel + 1) .searching ⟨g, some b4 :: rest, nr + 3, nt, log⟩ =
        run clock fuel .searching ⟨g, rest, nr + 4, nt, log⟩) := by
  refine ⟨fun b hb => calibrate_iter_skip g b rest nr nt log hb,
    fun r2 r3 b4 => calibrate_iter_four g r2 r3 b4 rest nr nt log, ?_, ?_⟩
  · intro r2 r3 b4
    rw [calibrate_iter_four]
    by_cases h : b4 = 0xFF
    · simp [h]
    · simp [h]
  · intro r2 r3 b4 fuel hb
    constructor
    · have hs : step clock .searching
          ⟨g, some 0xFF :: r2 :: r3 :: some b4 :: rest, nr, nt, log⟩ =
          .next .searching ⟨g, rest, nr + 4, nt, log⟩ := by
        have h4 := calibrate_iter_four g r2 r3 b4 rest nr nt log
        rw [if_neg hb] at h4
        exact h4
      exact run_succ_next clock fuel _ _ _ _ hs
    · have hs : step clock .searching ⟨g, some b4 :: rest, nr + 3, nt, log⟩ =
          .next .searching ⟨g, rest, nr + 3 + 1, nt, log⟩ :=
        calibrate_iter_skip g b4 rest (nr + 3) nt log hb
      exact run_succ_next clock fuel _ _ _ _ hs

theorem searching_transition_witness :
    (7 : Byte) ≠ 0xFF ∧
    calibrate_iter ⟨startup 4 [0, 0, 0, 0] [0, 0, 0, 0], [some 7, some 8], 0, 0, []⟩ =
      .next .searching ⟨startup 4 [0, 0, 0, 0] [0, 0, 0, 0], [some 8], 1, 0, []⟩ :=
  ⟨by decide,
   (searching_transition tick (startup 4 [0, 0, 0, 0] [0, 0, 0, 0]) [some 8] 0 0 []).1
     7 (by decide)⟩

/-! ## Theorems: the plot coordinates and the plot loop -/

/-- The value of line 138-139 when nothing overflows: for a plot height
`ph = height - 40 ≥ 0` and `0 ≤ v ≤ max_y`, `ph - ph * v / max_y`. -/
theorem ycoord_exact (height max_y v : Int) (hh1 : 40 ≤ height)
    (hh2 : height < 2147483648) (hm : 0 < max_y)
    (hp : (height - 40) * max_y < 2147483648) (hv0 : 0 ≤ v) (hv1 : v ≤ max_y) :
    ycoord height (sub32 height GUTTER) v max_y =
      .ok (height - 40 - Int.tdiv ((height - 40) * v) max_y) ∧
    0 ≤ Int.tdiv ((height - 40) * v) max_y ∧
    Int.tdiv ((height - 40) * v) max_y ≤ height - 40 := by
  have hph : 0 ≤ height - 40 := by omega
  have hpv0 : 0 ≤ (height - 40) * v := Int.mul_nonneg hph hv0
  have hpv1 : (height - 40) * v ≤ (height - 40) * max_y :=
    Int.mul_le_mul_of_nonneg_left hv1 hph
  have hq0 : 0 ≤ Int.tdiv ((height - 40) * v) max_y := by
    rw [Int.tdiv_eq_ediv hpv0 (by omega)]
    exact Int.ediv_nonneg hpv0 (by omega)
  have hq1 : Int.tdiv ((height - 40) * v) max_y ≤ height - 40 := by
    rw [Int.tdiv_eq_ediv hpv0 (by omega)]
    exact Int.ediv_le_of_le_mul hm hpv1
  refine ⟨?_, hq0, hq1⟩
  have e1 : sub32 height GUTTER = height - 40 := by
    unfold sub32 GUTTER
    exact wrap32_of_range _ (by omega) (by omega)
  have e2 : mul32 (height - 40) v = (height - 40) * v := by
    unfold mul32
    exact wrap32_of_range _ (by omega) (by omega)
  have e3 : div32 ((height - 40) * v) max_y = Int.tdiv ((height - 40) * v) max_y := by
    unfold div32
    exact wrap32_of_range _ (by omega) (by omega)
  have e4 : sub32 (height - 40) (Int.tdiv ((height - 40) * v) max_y) =
      height - 40 - Int.tdiv ((height - 40) * v) max_y := by
    unfold sub32
    exact wrap32_of_range _ (by omega) (by omega)
  unfold ycoord
  rw [if_neg (by omega), e1, e2, e3, e4]

/-- C17. Render Y mapping is inverted and bounded: with `plot_height =
height - 40`, for `40 ≤ height` fitting an `int`, `0 < max_y`, and the product
`plot_height * max_y` (hence every `plot_height * v` with `0 ≤ v ≤ max_y`)
fitting an `int`, the y of lines 138-139 is `height - 40 - plot_height * v /
max_y` with the quotient truncated; it lies in `[0, height - 40]`, is
`height - 40` at `v = 0` and `0` at `v = max_y`, and does not increase when
`v` increases. -/
theorem render_y_mapping (height max_y : Int) (hh1 : 40 ≤ height)
    (hh2 : height < 2147483648) (hm : 0 < max_y)
    (hp : (height - 40) * max_y < 2147483648) :
    (∀ v, 0 ≤ v → v ≤ max_y →
      ∃ y, ycoord height (sub32 height GUTTER) v max_y = .ok y ∧
        y = height - 40 - Int.tdiv ((height - 40) * v) max_y ∧
        0 ≤ y ∧ y ≤ height - 40) ∧
    ycoord height (sub32 height GUTTER) 0 max_y = .ok (height - 40) ∧
    ycoord height (sub32 height GUTTER) max_y max_y = .ok 0 ∧
    (∀ v1 v2 y1 y2, 0 ≤ v1 → v1 ≤ v2 → v2 ≤ max_y →
      ycoord height (sub32 height GUTTER) v1 max_y = .ok y1 →
      ycoord height (sub32 height GUTTER) v2 max_y = .ok y2 → y2 ≤ y1) := by
  refine ⟨?_, ?_, ?_, ?_⟩
  · intro v hv0 hv1
    obtain ⟨h1, h2, h3⟩ := ycoord_exact height max_y v hh1 hh2 hm hp hv0 hv1
    exact ⟨_, h1, rfl, by omega, by omega⟩
  · obtain ⟨h1, -, -⟩ := ycoord_exact height max_y 0 hh1 hh2 hm hp (le_refl 0) (by omega)
    rw [h1]
    simp
  · obtain ⟨h1, -, -⟩ :=
      ycoord_exact height max_y max_y hh1 hh2 hm hp (by omega) (le_refl _)
    rw [h1, Int.mul_tdiv_cancel _ (by omega)]
    simp
  · intro v1 v2 y1 y2 h0 h12 h2m e1 e2
    obtain ⟨k1, -, -⟩ :=
      ycoord_exact height max_y v1 hh1 hh2 hm hp h0 (by omega)
    obtain ⟨k2, -, -⟩ :=
      ycoord_exact height max_y v2 hh1 hh2 hm hp (by omega) h2m
    rw [k1] at e1
    rw [k2] at e2
    cases e1
    cases e2
    have hph : 0 ≤ height - 40 := by omega
    have hle : (height - 40) * v1 ≤ (height - 40) * v2 :=
      Int.mul_le_mul_of_nonneg_left h12 hph
    have hq : Int.tdiv ((height - 40) * v1) max_y ≤ Int.tdiv ((height - 40) * v2) max_y := by
      rw [Int.tdiv_eq_ediv (Int.mul_nonneg hph h0) (by omega),
        Int.tdiv_eq_ediv (Int.mul_nonneg hph (by omega)) (by omega)]
      exact Int.ediv_le_ediv hm hle
    omega

theorem render_y_mapping_witness :
    ycoord 600 (sub32 600 GUTTER) 0 1200 = .ok 560 ∧
    ycoord 600 (sub32 600 GUTTER) 1200 1200 = .ok 0 :=
  ⟨(render_y_mapping 600 1200 (by decide) (by decide) (by decide) (by decide)).2.1,
   (render_y_mapping 600 1200 (by decide) (by decide) (by decide) (by decide)).2.2.1⟩

theorem ringDist_eq_mod (C i j : Nat) (hi : i < C) (hj : j < C) :
    ringDist C i j = (j + C - i) % C := by
  unfold ringDist
  split
  · have h : j + C - i = (j - i) + C := by omega
    rw [h, Nat.add_mod_right, Nat.mod_eq_of_lt (by omega)]
  · rw [Nat.mod_eq_of_lt (by omega)]

/-- On a range that does not wrap, line 128 gives the number of samples from
`sample_head` up to `end`. -/
theorem rangeLen_unwrapped (g : Globals) (e : Nat) (hhe : g.sample_head ≤ e) :
    rangeLen g e = (ringDist g.sample_len g.sample_head e : Nat) := by
  unfold rangeLen ringDist
  rw [if_neg (by omega), if_pos hhe]
  omega

/-- With both indices inside the arrays, a divisor `len` and a `max_y` other
than zero, the loop of `plot_points` returns after one pass for each step of
the ring from `i` to `end`: pass number `k` is at index `(i + k) mod C` with
the offset counter at `n + k`, and draws the point of lines 137-139 for that
index and that offset. -/
theorem plot_loop_cover (opts : plotarg) (g : Globals) (e : Nat) (len xrange yrange : Int)
    (hs : g.samples.length = g.sample_len) (he : e < g.sample_len)
    (hmax : opts.max_y ≠ 0) (hlen : len ≠ 0)
    (d fuel i : Nat) (n x0 prev : Int) (hi : i < g.sample_len)
    (hd : ringDist g.sample_len i e = d) (hfuel : d ≤ fuel)
    (hn0 : 0 ≤ n) (hn : n + (d : Int) < 2147483648) :
    ∃ ds, plot_loop opts g e len xrange yrange fuel i n x0 prev = .ok ds ∧
      pointsOf ds = (List.range d).map (fun k =>
        (add32 GUTTER (div32 (mul32 xrange (n + (k : Nat))) len),
         sub32 (sub32 opts.height GUTTER)
           (div32 (mul32 yrange (g.samples.getD ((i + k) % g.sample_len) 0))
             opts.max_y))) := by
  induction d generalizing fuel i n x0 prev with
  | zero =>
    have hie : i = e := by
      unfold ringDist at hd
      split at hd <;> omega
    subst hie
    cases fuel <;> exact ⟨[], by simp [plot_loop], by simp [pointsOf]⟩
  | succ d ih =>
    have hne : i ≠ e := by
      intro h
      rw [h] at hd
      simp [ringDist] at hd
    obtain ⟨f, rfl⟩ : ∃ f, fuel = f + 1 := ⟨fuel - 1, by omega⟩
    have hget : g.samples[i]? = some (g.samples.getD i 0) := by
      rw [List.getD_eq_getElem?_getD, List.getElem?_eq_getElem (by rw [hs]; omega)]
      rfl
    have hn1 : add32 n 1 = n + 1 := by
      unfold add32
      exact wrap32_of_range _ (by omega) (by omega)
    have hi1 : (if i + 1 ≥ g.sample_len then 0 else i + 1) = (i + 1) % g.sample_len :=
      wrap_succ_of_lt i g.sample_len hi
    obtain ⟨ds, hds, hpts⟩ := ih f ((i + 1) % g.sample_len)
      (n + 1) (add32 GUTTER (div32 (mul32 xrange n) len))
      (sub32 (sub32 opts.height GUTTER)
        (div32 (mul32 yrange (g.samples.getD i 0)) opts.max_y))
      (Nat.mod_lt _ (by omega))
      (by
        rw [← hi1]
        unfold ringDist at hd ⊢
        split at hd <;> split <;> split <;> omega)
      (by omega) (by omega) (by push_cast at hn ⊢; omega)
    refine ⟨.line x0 prev (add32 GUTTER (div32 (mul32 xrange n) len))
        (sub32 (sub32 opts.height GUTTER)
          (div32 (mul32 yrange (g.samples.getD i 0)) opts.max_y)) ::
      .point (add32 GUTTER (div32 (mul32 xrange n) len))
        (sub32 (sub32 opts.height GUTTER)
          (div32 (mul32 yrange (g.samples.getD i 0)) opts.max_y)) :: ds, ?_, ?_⟩
    · rw [plot_loop, if_neg hne]
      simp only [xcoord, if_neg hlen, hget, ycoord, if_neg hmax, hi1, hn1, hds]
    · rw [List.range_succ_eq_map, List.map_cons, List.map_map]
      simp only [pointsOf, hpts]
      congr 1
      · simp [Nat.mod_eq_of_lt hi]
      · apply List.map_congr_left
        intro k _
        simp only [Function.comp, Nat.succ_eq_add_one, Nat.cast_add, Nat.cast_one]
        have e1 : ((i + 1) % g.sample_len + k) % g.sample_len =
            (i + (k + 1)) % g.sample_len := by
          rw [Nat.mod_add_mod]
          congr 1
          omega
        have e2 : n + 1 + (k : Int) = n + ((k : Int) + 1) := by ring
        rw [e1, e2]

/-- On a range that does not wrap and is not empty, on a canvas wider than
the gutter, when the product `(width - 40) * len` fits an `int`, every x that
`plot_points` draws a point at lies in `[40, width)`, and these x never
decrease from one point to the next. -/
theorem unwrapped_x_on_canvas (fuel : Nat) (opts : plotarg) (g : Globals) (e : Nat)
    (hs : g.samples.length = g.sample_len) (he : e < g.sample_len)
    (hC : (g.sample_len : Int) < 2147483648)
    (hhe : g.sample_head < e) (hmax : opts.max_y ≠ 0)
    (hw1 : 40 < opts.width) (hw2 : opts.width < 2147483648)
    (hp : (opts.width - 40) * (rangeLen g e) < 2147483648)
    (hfuel : e - g.sample_head ≤ fuel) :
    ∃ ds, plot_points fuel opts g e = .ok ds ∧
      (pointXs ds).length = e - g.sample_head ∧
      (∀ x ∈ pointXs ds, 40 ≤ x ∧ x < opts.width) ∧
      List.Pairwise (fun a b => a ≤ b) (pointXs ds) := by
  have hlen : rangeLen g e = ((e - g.sample_head : Nat) : Int) := by
    unfold rangeLen
    rw [if_neg (by omega)]
    omega
  have hpos : 0 < rangeLen g e := by rw [hlen]; omega
  have hne : rangeLen g e ≠ 0 := by omega
  have hxr : sub32 opts.width GUTTER = opts.width - 40 := by
    unfold sub32 GUTTER
    exact wrap32_of_range _ (by omega) (by omega)
  obtain ⟨ds, hds, hxs⟩ := plot_loop_xs opts g e (rangeLen g e)
    (sub32 opts.width GUTTER) (sub32 opts.height GUTTER) hs he hmax hne fuel
    g.sample_head 0 GUTTER (sub32 opts.height GUTTER) (by omega) (by omega) (by omega)
    hfuel
  have hxr0 : 0 < opts.width - 40 := by omega
  -- the x of line 137 at offset `k`, without wrap-around
  have hval : ∀ k ∈ List.range (e - g.sample_head),
      add32 GUTTER (div32 (mul32 (sub32 opts.width GUTTER) (0 + (k : Nat)))
        (rangeLen g e)) =
      40 + ((opts.width - 40) * (k : Int)) / (rangeLen g e) ∧
      0 ≤ ((opts.width - 40) * (k : Int)) / (rangeLen g e) ∧
      ((opts.width - 40) * (k : Int)) / (rangeLen g e) < opts.width - 40 := by
    intro k hk
    rw [List.mem_range] at hk
    have hk0 : (0 : Int) ≤ (k : Int) := Int.ofNat_nonneg k
    have hkl : (k : Int) < rangeLen g e := by rw [hlen]; omega
    have hp0 : 0 ≤ (opts.width - 40) * (k : Int) := Int.mul_nonneg (by omega) hk0
    have hp1 : (opts.width - 40) * (k : Int) < (opts.width - 40) * rangeLen g e :=
      Int.mul_lt_mul_of_pos_left hkl hxr0
    have hq0 : 0 ≤ ((opts.width - 40) * (k : Int)) / (rangeLen g e) :=
      Int.ediv_nonneg hp0 (by omega)
    have hq1 : ((opts.width - 40) * (k : Int)) / (rangeLen g e) < opts.width - 40 :=
      Int.ediv_lt_of_lt_mul hpos hp1
    refine ⟨?_, hq0, hq1⟩
    rw [hxr, zero_add]
    unfold mul32
    rw [wrap32_of_range _ (by omega) (by omega)]
    unfold div32
    rw [Int.tdiv_eq_ediv hp0 (by omega), wrap32_of_range _ (by omega) (by omega)]
    unfold add32 GUTTER
    exact wrap32_of_range _ (by omega) (by omega)
  have hxs2 : pointXs ds = (List.range (e - g.sample_head)).map
      (fun k => 40 + ((opts.width - 40) * ((k : Nat) : Int)) / (rangeLen g e)) := by
    rw [hxs]
    exact List.map_congr_left (fun k hk => (hval k hk).1)
  refine ⟨.setColor 0 200 0 255 :: ds, ?_, ?_, ?_, ?_⟩
  · unfold plot_points
    simp only [hds]
  · simp [pointXs, hxs]
  · intro x hx
    simp only [pointXs, hxs2, List.mem_map] at hx
    obtain ⟨k, hk, rfl⟩ := hx
    obtain ⟨-, h0, h1⟩ := hval k hk
    omega
  · simp only [pointXs, hxs2]
    rw [List.pairwise_map]
    refine (List.pairwise_lt_range _).imp ?_
    intro a b hab
    have hle : (opts.width - 40) * (a : Int) ≤ (opts.width - 40) * (b : Int) :=
      Int.mul_le_mul_of_nonneg_left (by exact_mod_cast hab.le) (by omega)
    have := Int.ediv_le_ediv hpos hle
    omega

/-- Line 126 and line 128 give a divisor other than zero for every `end` other
than `sample_head`, both inside the arrays, except for `sample_head = C - 1`
with `end = 0`. -/
theorem rangeLen_ne_zero (g : Globals) (e : Nat) (hh : g.sample_head < g.sample_len)
    (hne : e ≠ g.sample_head) (hcase : g.sample_head + 1 < g.sample_len ∨ e ≠ 0) :
    0 < rangeLen g e := by
  unfold rangeLen
  split <;> omega

/-! ## The code on ranges that wrap and on the last index -/

/-- C12: the code on a range that wraps. In a ring of 4 with
`sample_head = 2`, the range up to `end = 1` holds the three samples at
indices 2, 3 and 0, `(end - head + C) mod C = 3`, and the loop of
`plot_points` draws three points; line 126 gives `len = 2`. -/
theorem wrapped_len_one_short :
    wrappedExample.Valid ∧
    rangeLen wrappedExample 1 = 2 ∧
    ((1 : Int) - wrappedExample.sample_head + wrappedExample.sample_len)
      % wrappedExample.sample_len = 3 ∧
    (plot_points 4 (optsOf 100 100 1) wrappedExample 1).map
      (fun ds => (pointXs ds).length) = .ok 3 := by
  decide

/-- C15: the code on a buffer whose `sample_head` is the last index of the
arrays. In a ring of 4 with `sample_head = 3` and `sample_tail = 1` the scan
of line 178 starts at `end = 4`, which is not `sample_tail`, and line 179
reads `sample_times[4]`, outside the array. -/
theorem scan_reads_past_array :
    (lastSlot 1).Valid ∧
    (lastSlot 1).sample_head ≠ (lastSlot 1).sample_tail ∧
    (lastSlot 1).sample_head + 1 = (lastSlot 1).sample_times.length ∧
    (lastSlot 1).sample_times[(lastSlot 1).sample_head + 1]? = none ∧
    find_end (lastSlot 1) 2000 4 ((lastSlot 1).sample_head + 1) = .error .outOfBounds ∧
    window_end 4 (optsOf 50 51 1) (lastSlot 1) = .error .outOfBounds ∧
    doplot 4 (optsOf 50 51 1) (lastSlot 1) = .error .outOfBounds := by
  decide

/-- C18: the code on the one-sample range that wraps. In a ring of 4 with
`sample_head = 3` and `end = 0`, line 126 gives `len = 4 - 3 + 0 - 1 = 0`, and
the first pass of the loop divides by it at line 137. -/
theorem wrapped_divisor_zero :
    (lastSlot 0).Valid ∧
    (lastSlot 0).sample_head ≠ 0 ∧
    rangeLen (lastSlot 0) 0 = 0 ∧
    xcoord (sub32 100 GUTTER) 0 (rangeLen (lastSlot 0) 0) = .error .divByZero ∧
    plot_points 4 (optsOf 100 100 1) (lastSlot 0) 0 = .error .divByZero := by
  decide

/-- C19: the code on a range that wraps. In a ring of 4 with
`sample_head = 2` and `end = 1`, on a canvas of width 100, the three points
are drawn at `x = 40`, `70` and `100`, the last one at the width itself; and
`doplot` on that buffer, with a window that takes in all three samples on a
canvas of width 50, draws its last point at `x = 50`. -/
theorem wrapped_x_reaches_width :
    (plot_points 4 (optsOf 100 100 1) wrappedExample 1).map pointXs =
      .ok [40, 70, 100] ∧
    (optsOf 100 100 1).width = 100 ∧
    (doplot 4 (optsOf 50 51 10) wrappedExample).map (fun r => (r.2.2, pointXs r.2.1)) =
      .ok (1, [40, 45, 50]) := by
  decide

/-- C20: the code on the one-sample range that wraps. In a ring of 4 with
`sample_head = 3` and `end = 0` there is one step from head to `end`, but the
loop of `plot_points` makes no full pass: with `len = 0` the first pass stops
at the division of line 137, whatever the fuel. -/
theorem plot_loop_stops_in_first_pass :
    ringDist 4 (lastSlot 0).sample_head 0 = 1 ∧
    plot_loop (optsOf 100 100 1) (lastSlot 0) 0 (rangeLen (lastSlot 0) 0) 60 60
      1 (lastSlot 0).sample_head 0 40 60 = .error .divByZero ∧
    plot_loop (optsOf 100 100 1) (lastSlot 0) 0 (rangeLen (lastSlot 0) 0) 60 60
      4 (lastSlot 0).sample_head 0 40 60 = .error .divByZero := by
  decide

end Oscii
